import Mathlib

/-!
# AchiraComputer: the virtual machine of `computer_simulater/vm.cpp`

A shallow embedding of the fetch-decode-execute interpreter and theorems about it.

Modelling conventions.

* `int` is a 32-bit two's complement integer.  Values are carried as `Int`; the
  arithmetic instructions reduce their result with `wrap32`.
* `int memory[65536]` and `int registers[8]` are maps from `Fin 65536` and `Fin 8`.
  The source indexes them with unchecked `int`s; an index outside the array has no
  defined behaviour, and the accessors below return `none` there.  `none` is
  therefore "the C++ program has no defined result", never a fault that the
  program reports: the source has no fault mechanism at all.
  An access the source does not perform is not checked either: `POP` on an empty
  stack never touches its register operand, `DIV` with a zero divisor never touches
  its first one.
* `DIV` truncates toward zero (`Int.tdiv`).  The source guards the zero divisor only; the
  quotient `-2^31 / -1` is not representable, the division is undefined (and traps on
  the usual hardware), so `execute` returns `none` there as for the array accesses.
* `std::stack<int>` is a `List Int` whose head is the top of the stack.
* `std::cout` is the list `output` of emitted events (oldest first).  `std::cin` is the
  list `input` of tokens still to be read, a numeral of any size or something that is
  no numeral, together with the flag `inputOk` of the stream; `extractInt` is the
  extraction `std::cin >> x` into an `int`.
* the `while` loop of `run` takes a fuel argument counting fetch-execute cycles.
-/

namespace AchiraVM

/-! ## Data model -/

/-- The instruction codes, in the order of the source's `enum Opcode`. -/
inductive Opcode where
  | LOAD | STORE | MOV | PUSH | POP
  | ADD | SUB | MUL | DIV | INC | DEC
  | JMP | JZ | JNZ | CALL | RET
  | CMP | AND | OR | XOR | NOT
  | INT | HLT | NOP
  | IN | OUT
  deriving DecidableEq, Repr

/-- The integer value of an enumerator: `LOAD = 0`, ..., `OUT = 25`. -/
def Opcode.toInt : Opcode → Int
  | .LOAD => 0 | .STORE => 1 | .MOV => 2 | .PUSH => 3 | .POP => 4
  | .ADD => 5 | .SUB => 6 | .MUL => 7 | .DIV => 8 | .INC => 9 | .DEC => 10
  | .JMP => 11 | .JZ => 12 | .JNZ => 13 | .CALL => 14 | .RET => 15
  | .CMP => 16 | .AND => 17 | .OR => 18 | .XOR => 19 | .NOT => 20
  | .INT => 21 | .HLT => 22 | .NOP => 23
  | .IN => 24 | .OUT => 25

/-- The `case` label selected by `switch (instruction)`; `none` when no label matches. -/
def Opcode.ofInt (instruction : Int) : Option Opcode :=
  if instruction < 0 then none
  else
    match instruction.toNat with
    | 0 => some .LOAD | 1 => some .STORE | 2 => some .MOV | 3 => some .PUSH | 4 => some .POP
    | 5 => some .ADD | 6 => some .SUB | 7 => some .MUL | 8 => some .DIV | 9 => some .INC
    | 10 => some .DEC
    | 11 => some .JMP | 12 => some .JZ | 13 => some .JNZ | 14 => some .CALL | 15 => some .RET
    | 16 => some .CMP | 17 => some .AND | 18 => some .OR | 19 => some .XOR | 20 => some .NOT
    | 21 => some .INT | 22 => some .HLT | 23 => some .NOP
    | 24 => some .IN | 25 => some .OUT
    | _ => none

/-- What the machine writes to `std::cout`. -/
inductive Event where
  /-- The line `Output to port <port>: <value>`. -/
  | output (port value : Int)
  /-- The line `Interrupt: <code>`. -/
  | interrupt (code : Int)
  /-- The prompt `Input from port <port>: `. -/
  | inputPrompt (port : Int)
  deriving DecidableEq, Repr

/-- The `struct VM`, together with the two console streams it talks to. -/
structure VM where
  memory : Fin 65536 → Int
  registers : Fin 8 → Int
  ip : Int
  sp : Int
  running : Bool
  stack : List Int
  input : List (Option Int)
  inputOk : Bool
  output : List Event

/-- The constructor `VM()`: everything zero, `running = true`, empty stack.
The console has printed nothing and nothing has been typed. -/
def VM.init : VM :=
  { memory := fun _ => 0
    registers := fun _ => 0
    ip := 0
    sp := 0
    running := true
    stack := []
    input := []
    inputOk := true
    output := [] }

/-! ## 32-bit arithmetic -/

/-- The values of a 32-bit `int`. -/
def isInt32 (v : Int) : Prop := -2147483648 ≤ v ∧ v < 2147483648

instance (v : Int) : Decidable (isInt32 v) := by unfold isInt32; infer_instance

/-- Reduction of an integer to the 32-bit two's complement value congruent to it. -/
def wrap32 (v : Int) : Int := (v + 2147483648) % 4294967296 - 2147483648

/-! ## Array accesses -/

/-- The value of `memory[addr]`; `none` when `addr` is outside the array. -/
def readMem (memory : Fin 65536 → Int) (addr : Int) : Option Int :=
  if h : 0 ≤ addr ∧ addr < 65536 then some (memory ⟨addr.toNat, by omega⟩) else none

/-- The assignment `memory[addr] = v`; `none` when `addr` is outside the array. -/
def writeMem (memory : Fin 65536 → Int) (addr v : Int) : Option (Fin 65536 → Int) :=
  if h : 0 ≤ addr ∧ addr < 65536 then
    some (fun j => if j = ⟨addr.toNat, by omega⟩ then v else memory j)
  else none

/-- The value of `registers[reg]`; `none` when `reg` is outside the array. -/
def readReg (registers : Fin 8 → Int) (reg : Int) : Option Int :=
  if h : 0 ≤ reg ∧ reg < 8 then some (registers ⟨reg.toNat, by omega⟩) else none

/-- The assignment `registers[reg] = v`; `none` when `reg` is outside the array. -/
def writeReg (registers : Fin 8 → Int) (reg v : Int) : Option (Fin 8 → Int) :=
  if h : 0 ≤ reg ∧ reg < 8 then
    some (fun j => if j = ⟨reg.toNat, by omega⟩ then v else registers j)
  else none

/-! ## Fetch, execute, run -/

/-- The extraction `std::cin >> x` for an `int x`, given the tokens still to be read and
whether the stream is good: the value stored in `x` (`none` when `x` is left alone), the
tokens left, and whether the stream is still good.  A stream that has failed extracts
nothing; at the end of the input the stream fails and `x` is left alone; a token that is
no numeral stores 0 and fails the stream; a numeral outside the 32-bit range stores the
nearest 32-bit value and fails the stream. -/
def extractInt (input : List (Option Int)) (ok : Bool) :
    Option Int × List (Option Int) × Bool :=
  if ok then
    match input with
    | [] => (none, [], false)
    | none :: rest => (some 0, none :: rest, false)
    | some v :: rest =>
        if -2147483648 ≤ v ∧ v < 2147483648 then (some v, rest, true)
        else (some (if v < 0 then -2147483648 else 2147483647), rest, false)
  else (none, input, false)

/-- The function `fetch_next`: `return vm.memory[vm.ip++]`. -/
def fetch_next (vm : VM) : Option (Int × VM) :=
  match readMem vm.memory vm.ip with
  | none => none
  | some v => some (v, { vm with ip := vm.ip + 1 })

/-- The compound assignment `vm.registers[reg1] op= vm.registers[reg2]` after the two
operand fetches, shared by `ADD`, `SUB`, `MUL`, `AND`, `OR` and `XOR`. -/
def binop (f : Int → Int → Int) (vm : VM) : Option VM := do
  let (reg1, vm) ← fetch_next vm
  let (reg2, vm) ← fetch_next vm
  let a ← readReg vm.registers reg1
  let b ← readReg vm.registers reg2
  let regs ← writeReg vm.registers reg1 (f a b)
  pure { vm with registers := regs }

/-- The function `execute`: one `case` of the `switch` per opcode, and no effect when
no label matches (the `switch` has no `default`). -/
def execute (vm : VM) (instruction : Int) : Option VM :=
  match Opcode.ofInt instruction with
  | none => some vm
  | some .LOAD => do
      let (reg, vm) ← fetch_next vm
      let (addr, vm) ← fetch_next vm
      let v ← readMem vm.memory addr
      let regs ← writeReg vm.registers reg v
      pure { vm with registers := regs }
  | some .STORE => do
      let (reg, vm) ← fetch_next vm
      let (addr, vm) ← fetch_next vm
      let v ← readReg vm.registers reg
      let mem ← writeMem vm.memory addr v
      pure { vm with memory := mem }
  | some .MOV => do
      let (reg1, vm) ← fetch_next vm
      let (reg2, vm) ← fetch_next vm
      let v ← readReg vm.registers reg2
      let regs ← writeReg vm.registers reg1 v
      pure { vm with registers := regs }
  | some .PUSH => do
      let (reg, vm) ← fetch_next vm
      let v ← readReg vm.registers reg
      pure { vm with stack := v :: vm.stack }
  | some .POP => do
      let (reg, vm) ← fetch_next vm
      match vm.stack with
      | [] => pure vm
      | top :: rest => do
          let regs ← writeReg vm.registers reg top
          pure { vm with registers := regs, stack := rest }
  | some .ADD => binop (fun a b => wrap32 (a + b)) vm
  | some .SUB => binop (fun a b => wrap32 (a - b)) vm
  | some .MUL => binop (fun a b => wrap32 (a * b)) vm
  | some .DIV => do
      let (reg1, vm) ← fetch_next vm
      let (reg2, vm) ← fetch_next vm
      let b ← readReg vm.registers reg2
      if b ≠ 0 then do
        let a ← readReg vm.registers reg1
        if a = -2147483648 ∧ b = -1 then none
        else do
          let regs ← writeReg vm.registers reg1 (Int.tdiv a b)
          pure { vm with registers := regs }
      else pure vm
  | some .INC => do
      let (reg, vm) ← fetch_next vm
      let v ← readReg vm.registers reg
      let regs ← writeReg vm.registers reg (wrap32 (v + 1))
      pure { vm with registers := regs }
  | some .DEC => do
      let (reg, vm) ← fetch_next vm
      let v ← readReg vm.registers reg
      let regs ← writeReg vm.registers reg (wrap32 (v - 1))
      pure { vm with registers := regs }
  | some .JMP => do
      let (addr, vm) ← fetch_next vm
      pure { vm with ip := addr }
  | some .JZ => do
      let (addr, vm) ← fetch_next vm
      if vm.registers 0 = 0 then pure { vm with ip := addr } else pure vm
  | some .JNZ => do
      let (addr, vm) ← fetch_next vm
      if vm.registers 0 ≠ 0 then pure { vm with ip := addr } else pure vm
  | some .CALL => do
      let (addr, vm) ← fetch_next vm
      pure { vm with stack := vm.ip :: vm.stack, ip := addr }
  | some .RET =>
      match vm.stack with
      | [] => pure vm
      | top :: rest => pure { vm with ip := top, stack := rest }
  | some .CMP => do
      let (reg1, vm) ← fetch_next vm
      let (reg2, vm) ← fetch_next vm
      let a ← readReg vm.registers reg1
      let b ← readReg vm.registers reg2
      pure { vm with registers := fun j => if j = 0 then (if a = b then 1 else 0)
                                           else vm.registers j }
  | some .AND => binop Int.land vm
  | some .OR => binop Int.lor vm
  | some .XOR => binop Int.xor vm
  | some .NOT => do
      let (reg, vm) ← fetch_next vm
      let v ← readReg vm.registers reg
      let regs ← writeReg vm.registers reg (Int.not v)
      pure { vm with registers := regs }
  | some .INT => do
      let (interrupt, vm) ← fetch_next vm
      pure { vm with output := vm.output ++ [Event.interrupt interrupt] }
  | some .HLT => pure { vm with running := false }
  | some .NOP => pure vm
  | some .IN => do
      let (reg, vm) ← fetch_next vm
      let (port, vm) ← fetch_next vm
      let vm := { vm with output := vm.output ++ [Event.inputPrompt port] }
      let _ ← readReg vm.registers reg
      match extractInt vm.input vm.inputOk with
      | (none, input, ok) => pure { vm with input := input, inputOk := ok }
      | (some v, input, ok) => do
          let regs ← writeReg vm.registers reg v
          pure { vm with registers := regs, input := input, inputOk := ok }
  | some .OUT => do
      let (port, vm) ← fetch_next vm
      let (reg, vm) ← fetch_next vm
      let v ← readReg vm.registers reg
      pure { vm with output := vm.output ++ [Event.output port v] }

/-- One iteration of the loop body of `run`: fetch the opcode cell, then `execute` it. -/
def step (vm : VM) : Option VM :=
  match fetch_next vm with
  | none => none
  | some (instruction, vm) => execute vm instruction

/-- How a bounded execution of `run` ends. -/
inductive Outcome where
  /-- The loop saw `running = false` and returned, leaving this state. -/
  | halted (vm : VM)
  /-- An array was indexed outside its bounds: the C++ program has no defined behaviour. -/
  | undefined
  /-- The loop was still running when the cycle budget was used up. -/
  | outOfFuel

/-- The function `run`: `while (vm.running) { execute(vm, fetch_next(vm)); }`, performing at
most `fuel` fetch-execute cycles. -/
def run : Nat → VM → Outcome
  | 0, vm => if vm.running then .outOfFuel else .halted vm
  | fuel + 1, vm =>
      if vm.running then
        match step vm with
        | none => .undefined
        | some vm => run fuel vm
      else .halted vm

/-- The loader loop of `main`: `vm.memory[i] = program[i]` for every index of `program`,
starting at cell `base`. -/
def loadProgram (memory : Fin 65536 → Int) : Int → List Int → Option (Fin 65536 → Int)
  | _, [] => some memory
  | base, c :: rest =>
      match writeMem memory base c with
      | none => none
      | some m => loadProgram m (base + 1) rest

/-! ## The instruction table of the specification

What the specification says about the operands of each opcode, written down to state
its claims; the theorems compare it with `execute`. -/

/-- What an operand cell stands for. -/
inductive OperandKind where
  /-- An index into the register file, in range when it lies in `[0,8)`. -/
  | reg
  /-- A memory address, in range when it lies in `[0,65536)`. -/
  | addr
  /-- A port number or an interrupt code: any integer. -/
  | value
  deriving DecidableEq, Repr

/-- The operand column of the specification's opcode table, in the order the operands
are fetched. -/
def Opcode.operands : Opcode → List OperandKind
  | .LOAD => [.reg, .addr] | .STORE => [.reg, .addr] | .MOV => [.reg, .reg]
  | .PUSH => [.reg] | .POP => [.reg]
  | .ADD => [.reg, .reg] | .SUB => [.reg, .reg] | .MUL => [.reg, .reg] | .DIV => [.reg, .reg]
  | .INC => [.reg] | .DEC => [.reg]
  | .JMP => [.addr] | .JZ => [.addr] | .JNZ => [.addr] | .CALL => [.addr] | .RET => []
  | .CMP => [.reg, .reg] | .AND => [.reg, .reg] | .OR => [.reg, .reg] | .XOR => [.reg, .reg]
  | .NOT => [.reg]
  | .INT => [.value] | .HLT => [] | .NOP => []
  | .IN => [.reg, .value] | .OUT => [.value, .reg]

/-- The number of operand cells the specification gives each opcode: 2 for `LOAD`, `STORE`,
`MOV`, `ADD`, `SUB`, `MUL`, `DIV`, `CMP`, `AND`, `OR`, `XOR`, `IN`, `OUT`; 1 for `PUSH`,
`POP`, `INC`, `DEC`, `NOT`, `INT`, `JMP`, `JZ`, `JNZ`, `CALL`; 0 for `RET`, `HLT`, `NOP`. -/
def Opcode.arity : Opcode → Int
  | .LOAD | .STORE | .MOV | .ADD | .SUB | .MUL | .DIV | .CMP | .AND | .OR | .XOR
  | .IN | .OUT => 2
  | .PUSH | .POP | .INC | .DEC | .NOT | .INT | .JMP | .JZ | .JNZ | .CALL => 1
  | .RET | .HLT | .NOP => 0

/-- Whether a cell value is in range for an operand of the given kind. -/
def operandOk : OperandKind → Int → Bool
  | .reg, v => decide (0 ≤ v ∧ v < 8)
  | .addr, v => decide (0 ≤ v ∧ v < 65536)
  | .value, _ => true

/-- Whether the cells from `p` upward can be fetched and hold in-range operands of the
given kinds. -/
def operandsOkFrom (memory : Fin 65536 → Int) : Int → List OperandKind → Bool
  | _, [] => true
  | p, k :: ks =>
      match readMem memory p with
      | none => false
      | some v => operandOk k v && operandsOkFrom memory (p + 1) ks

/-- Whether the operands of the instruction `op` whose opcode cell is at the instruction
pointer are in range. -/
def operandsOk (s : VM) (op : Opcode) : Bool :=
  operandsOkFrom s.memory (s.ip + 1) op.operands

/-- Whether the instruction `op`, executed in state `s`, transfers control: `JMP`, `CALL`, a
taken `JZ` or `JNZ`, and `RET` on a non-empty stack. -/
def transfers (s : VM) (op : Opcode) : Bool :=
  match op with
  | .JMP | .CALL => true
  | .JZ => decide (s.registers 0 = 0)
  | .JNZ => decide (s.registers 0 ≠ 0)
  | .RET => !s.stack.isEmpty
  | _ => false

/-- Whether the two cells after the instruction pointer name registers holding `-2^31` and
`-1`, the one pair of 32-bit values whose quotient is not a 32-bit value. -/
def divOverflow (s : VM) : Bool :=
  match readMem s.memory (s.ip + 1), readMem s.memory (s.ip + 2) with
  | some r1, some r2 =>
      decide (readReg s.registers r1 = some (-2147483648) ∧ readReg s.registers r2 = some (-1))
  | _, _ => false

/-- The state after at most `n` iterations of the loop of `run`: the loop body is repeated
while `running` holds. -/
def cycles : Nat → VM → Option VM
  | 0, vm => some vm
  | n + 1, vm => if vm.running then (step vm).bind (cycles n) else some vm

/-! ## Concrete machines

The scenario of the specification and small machines on which the theorems below are
evaluated. -/

/-- A memory image holding `l` from cell 0 upward and zero everywhere else. -/
def cells (l : List Int) : Fin 65536 → Int := fun j => l.getD j.val 0

/-- The program `LOAD 0,10; LOAD 5,5; ADD 5,0; INC 0; OUT 1,0; OUT 2,5; HLT`. -/
def scenarioProgram : List Int :=
  [ Opcode.LOAD.toInt, 0, 10,
    Opcode.LOAD.toInt, 5, 5,
    Opcode.ADD.toInt, 5, 0,
    Opcode.INC.toInt, 0,
    Opcode.OUT.toInt, 1, 0,
    Opcode.OUT.toInt, 2, 5,
    Opcode.HLT.toInt ]

/-- The scenario's machine, set up the way `main` sets up its own: a fresh `VM`, the
program copied to cells 0, 1, 2, ..., then `memory[10] = 5` and `memory[5] = 4`. -/
def scenarioVM : Option VM := do
  let m ← loadProgram VM.init.memory 0 scenarioProgram
  let m ← writeMem m 10 5
  let m ← writeMem m 5 4
  pure { VM.init with memory := m }

/-- The state a bounded run returned in, if it returned. -/
def Outcome.final : Outcome → Option VM
  | .halted vm => some vm
  | _ => none

/-- Whether a bounded run used up its cycle budget. -/
def Outcome.timedOut : Outcome → Bool
  | .outOfFuel => true
  | _ => false

/-- `ADD 1,2` at cell 0 with `R1 = 2147483647` and `R2 = 1`. -/
def addVM : VM :=
  { VM.init with
    memory := cells [Opcode.ADD.toInt, 1, 2]
    registers := fun j => if j = 1 then 2147483647 else if j = 2 then 1 else 0 }

/-- `ADD 0,0` at cell 0 with `R0 = 1`. -/
def addSelfVM : VM :=
  { VM.init with
    memory := cells [Opcode.ADD.toInt, 0, 0]
    registers := fun j => if j = 0 then 1 else 0 }

/-- The cell value 26, which is no opcode, followed by `OUT 7,0; HLT`. -/
def unknownOpcodeVM : VM :=
  { VM.init with memory := cells [26, Opcode.OUT.toInt, 7, 0, Opcode.HLT.toInt] }

/-- `CALL 9` at cell 3, `RET` at cell 9, one entry on the stack. -/
def callVM : VM :=
  { VM.init with
    memory := cells [0, 0, 0, Opcode.CALL.toInt, 9, 0, 0, 0, 0, Opcode.RET.toInt]
    ip := 3
    stack := [77] }

/-- `PUSH 3; POP 3` at cell 0 with `R3 = -5` and one entry on the stack. -/
def pushPopVM : VM :=
  { VM.init with
    memory := cells [Opcode.PUSH.toInt, 3, Opcode.POP.toInt, 3]
    registers := fun j => if j = 3 then -5 else 0
    stack := [77] }

/-- `CMP 2,3` at cell 0 with `R0 = 9`, `R2 = -4` and `R3 = -4`. -/
def cmpVM : VM :=
  { VM.init with
    memory := cells [Opcode.CMP.toInt, 2, 3]
    registers := fun j => if j = 0 then 9 else if j = 2 then -4 else if j = 3 then -4 else 0 }

/-- `JZ 40` at cell 0 and `JNZ 50` at cell 2, with `R0 = -1`. -/
def jumpVM : VM :=
  { VM.init with
    memory := cells [Opcode.JZ.toInt, 40, Opcode.JNZ.toInt, 50]
    registers := fun j => if j = 0 then -1 else 0 }

/-- `HLT` at cell 2, where the instruction pointer stands, followed by `OUT 1,0`. -/
def hltVM : VM :=
  { VM.init with
    memory := cells [0, 0, Opcode.HLT.toInt, Opcode.OUT.toInt, 1, 0]
    ip := 2
    registers := fun j => if j = 0 then 3 else 0
    stack := [77] }

/-- `DIV 1,2` at cell 0 with `R1 = 12` and `R2 = 0`. -/
def divZeroVM : VM :=
  { VM.init with
    memory := cells [Opcode.DIV.toInt, 1, 2]
    registers := fun j => if j = 1 then 12 else 0 }

/-- `POP 4` at cell 0 and `RET` at cell 2, with `R4 = 6` and an empty stack. -/
def emptyStackVM : VM :=
  { VM.init with
    memory := cells [Opcode.POP.toInt, 4, Opcode.RET.toInt]
    registers := fun j => if j = 4 then 6 else 0 }

/-- `JMP 65536` at cell 0: the jump leaves the memory. -/
def jmpOutVM : VM :=
  { VM.init with memory := cells [Opcode.JMP.toInt, 65536] }

/-- `LOAD 0,70000` at cell 0. -/
def loadOutVM : VM :=
  { VM.init with memory := cells [Opcode.LOAD.toInt, 0, 70000] }

/-- `STORE 0,-1` at cell 0. -/
def storeOutVM : VM :=
  { VM.init with memory := cells [Opcode.STORE.toInt, 0, -1] }

/-- `POP 9; HLT` at cell 0 with an empty stack and `R0 = 3`. -/
def popBadRegVM : VM :=
  { VM.init with
    memory := cells [Opcode.POP.toInt, 9, Opcode.HLT.toInt]
    registers := fun j => if j = 0 then 3 else 0 }

/-- `INC 8` at cell 0. -/
def incBadRegVM : VM :=
  { VM.init with memory := cells [Opcode.INC.toInt, 8] }

/-- `STORE 2,100` at cell 0 with `R2 = 42`. -/
def storeVM : VM :=
  { VM.init with
    memory := cells [Opcode.STORE.toInt, 2, 100]
    registers := fun j => if j = 2 then 42 else 0
    stack := [77] }

/-- `DIV 1,2` at cell 0 with `R1 = -7` and `R2 = 2`. -/
def divVM : VM :=
  { VM.init with
    memory := cells [Opcode.DIV.toInt, 1, 2]
    registers := fun j => if j = 1 then -7 else if j = 2 then 2 else 0 }

/-- `DIV 1,2` at cell 0 with `R1 = -2147483648` and `R2 = -1`. -/
def divOverflowVM : VM :=
  { VM.init with
    memory := cells [Opcode.DIV.toInt, 1, 2]
    registers := fun j => if j = 1 then -2147483648 else if j = 2 then -1 else 0 }

/-- `JMP 7` in the last two cells of the memory, with the instruction pointer at the `JMP`. -/
def jmpAtEndVM : VM :=
  { VM.init with
    memory := fun j => if j = 65534 then Opcode.JMP.toInt else if j = 65535 then 7 else 0
    ip := 65534 }

/-- `JMP` in the very last cell of the memory, with the instruction pointer at it: its
operand cell does not exist. -/
def jmpLastCellVM : VM :=
  { VM.init with
    memory := fun j => if j = 65535 then Opcode.JMP.toInt else 0
    ip := 65535 }

/-- `CALL 9` in the last two cells of the memory, with the instruction pointer at the `CALL`. -/
def callAtEndVM : VM :=
  { VM.init with
    memory := fun j => if j = 65534 then Opcode.CALL.toInt else if j = 65535 then 9 else 0
    ip := 65534 }

/-- `SUB 1,2` at cell 0 with `R1 = -2147483648` and `R2 = 1`. -/
def subVM : VM :=
  { VM.init with
    memory := cells [Opcode.SUB.toInt, 1, 2]
    registers := fun j => if j = 1 then -2147483648 else if j = 2 then 1 else 0 }

/-- `XOR 3,3` at cell 0 with `R3 = -6`. -/
def xorSelfVM : VM :=
  { VM.init with
    memory := cells [Opcode.XOR.toInt, 3, 3]
    registers := fun j => if j = 3 then -6 else 0 }

/-- `STORE 1,100; LOAD 2,100` at cell 0 with `R1 = 42`. -/
def storeLoadVM : VM :=
  { VM.init with
    memory := cells [Opcode.STORE.toInt, 1, 100, Opcode.LOAD.toInt, 2, 100]
    registers := fun j => if j = 1 then 42 else 0 }

/-- `STORE 1,3; LOAD 2,3` at cell 0 with `R1 = 22`, the code of `HLT`: the `STORE` writes
over the opcode cell of the `LOAD`. -/
def storeOverLoadVM : VM :=
  { VM.init with
    memory := cells [Opcode.STORE.toInt, 1, 3, Opcode.LOAD.toInt, 2, 3]
    registers := fun j => if j = 1 then 22 else 0 }

/-- The array `program` of `main`. -/
def mainProgram : List Int :=
  [ Opcode.LOAD.toInt, 5, 5,
    Opcode.INC.toInt, 5,
    Opcode.STORE.toInt, 5, 5,
    Opcode.LOAD.toInt, 0, 10,
    Opcode.LOAD.toInt, 5, 5,
    Opcode.ADD.toInt, 5, 0,
    Opcode.INC.toInt, 0,
    Opcode.OUT.toInt, 1, 0,
    Opcode.OUT.toInt, 2, 5,
    Opcode.HLT.toInt ]

/-- The machine `main` hands to `run`: a fresh `VM`, `program` copied to cells 0..25, then
`memory[10] = 5` and `memory[5] = 4`. -/
def mainVM : Option VM := do
  let m ← loadProgram VM.init.memory 0 mainProgram
  let m ← writeMem m 10 5
  let m ← writeMem m 5 4
  pure { VM.init with memory := m }

/-- What stands at the instruction pointer: the opcode cell and the two cells after it. -/
def VM.atIp (s : VM) : Option Int × Option Int × Option Int :=
  (readMem s.memory s.ip, readMem s.memory (s.ip + 1), readMem s.memory (s.ip + 2))

/-! ## Basic facts about the accessors -/

@[simp] theorem Opcode.ofInt_toInt (op : Opcode) : Opcode.ofInt op.toInt = some op := by
  cases op <;> rfl

theorem Opcode.ofInt_eq_none {i : Int} (h : i < 0 ∨ 25 < i) : Opcode.ofInt i = none := by
  unfold Opcode.ofInt
  rcases h with h | h
  · simp [h]
  · have hn : ¬ i < 0 := by omega
    obtain ⟨k, hk⟩ : ∃ k : Nat, i.toNat = k + 26 := ⟨i.toNat - 26, by omega⟩
    simp only [hn, if_false, hk]

theorem readMem_range {m : Fin 65536 → Int} {a v : Int} (h : readMem m a = some v) :
    0 ≤ a ∧ a < 65536 := by
  unfold readMem at h
  split at h
  · assumption
  · cases h

theorem readReg_range {regs : Fin 8 → Int} {r v : Int} (h : readReg regs r = some v) :
    0 ≤ r ∧ r < 8 := by
  unfold readReg at h
  split at h
  · assumption
  · cases h

theorem writeReg_isSome (regs : Fin 8 → Int) {r : Int} (h : 0 ≤ r ∧ r < 8) (v : Int) :
    ∃ regs', writeReg regs r v = some regs' := by
  simp [writeReg, h]

theorem readReg_writeReg_self {regs regs' : Fin 8 → Int} {r v : Int}
    (h : writeReg regs r v = some regs') : readReg regs' r = some v := by
  unfold writeReg at h
  split at h
  · rename_i hr
    cases h
    simp [readReg, hr]
  · cases h

theorem writeReg_frame {regs regs' : Fin 8 → Int} {r v : Int}
    (h : writeReg regs r v = some regs') (j : Fin 8) (hj : (j.val : Int) ≠ r) :
    regs' j = regs j := by
  unfold writeReg at h
  split at h
  · rename_i hr
    cases h
    have : j ≠ ⟨r.toNat, by omega⟩ := by
      intro e
      apply hj
      rw [e]
      simp
      omega
    simp [this]
  · cases h

theorem readReg_writeReg_of_ne {regs regs' : Fin 8 → Int} {r r' v : Int}
    (h : writeReg regs r v = some regs') (hne : r' ≠ r) :
    readReg regs' r' = readReg regs r' := by
  unfold readReg
  split
  · rename_i hr
    rw [writeReg_frame h]
    simp
    omega
  · rfl

/-- Writing back the value a register already holds changes nothing. -/
theorem writeReg_readReg {regs : Fin 8 → Int} {r v : Int} (h : readReg regs r = some v) :
    writeReg regs r v = some regs := by
  unfold readReg at h
  split at h
  · rename_i hr
    simp only [Option.some.injEq] at h
    simp only [writeReg, hr, and_self, dite_true, Option.some.injEq]
    funext j
    by_cases e : j = ⟨r.toNat, by omega⟩
    · simp [e, h]
    · simp [e]
  · cases h

theorem wrap32_isInt32 (v : Int) : isInt32 (wrap32 v) := by
  unfold isInt32 wrap32
  omega

theorem wrap32_congr (v : Int) : (4294967296 : Int) ∣ (wrap32 v - v) := by
  unfold wrap32
  omega

/-! ## Fetching and stepping -/

theorem step_eq {s : VM} {v : Int} (h : readMem s.memory s.ip = some v) :
    step s = execute { s with ip := s.ip + 1 } v := by
  simp [step, fetch_next, h]

/-- The effect of `binop` once the opcode cell has been fetched, when both operands name
registers. -/
theorem binop_eq (f : Int → Int → Int) (s : VM) (r1 r2 v1 v2 : Int)
    (h1 : readMem s.memory (s.ip + 1) = some r1)
    (h2 : readMem s.memory (s.ip + 2) = some r2)
    (hv1 : readReg s.registers r1 = some v1)
    (hv2 : readReg s.registers r2 = some v2) :
    ∃ regs, writeReg s.registers r1 (f v1 v2) = some regs ∧
      binop f { s with ip := s.ip + 1 } = some { s with ip := s.ip + 3, registers := regs } := by
  obtain ⟨regs, hw⟩ := writeReg_isSome s.registers (readReg_range hv1) (f v1 v2)
  refine ⟨regs, hw, ?_⟩
  simp [binop, fetch_next, h1, h2, hv1, hv2, hw, add_assoc]

/-- A run that returned within `n` cycles returns in the same state with any larger budget. -/
theorem run_halted_mono (n k : Nat) : ∀ (vm s : VM), run n vm = .halted s →
    run (n + k) vm = .halted s := by
  induction n with
  | zero =>
    intro vm s h
    cases k with
    | zero => exact h
    | succ k =>
      simp only [run] at h
      split at h
      · cases h
      · rename_i hr
        simp only [Nat.zero_add, run, hr]
        exact h
  | succ n ih =>
    intro vm s h
    rw [Nat.add_right_comm]
    simp only [run] at h ⊢
    split
    · rename_i hr
      simp only [hr, if_true] at h
      cases hs : step vm with
      | none => simp [hs] at h
      | some vm' =>
        simp only [hs] at h ⊢
        exact ih vm' s h
    · rename_i hr
      simp only [hr] at h
      exact h

/-- The scenario's machine returns after seven cycles having printed 5 on port 1 and 11
on port 2. -/
theorem scenario_run_seven :
    (scenarioVM.bind fun vm => (run 7 vm).final).map (fun s => (s.output, s.running))
      = some ([Event.output 1 5, Event.output 2 11], false) := by
  decide

/-- With fewer than seven cycles the scenario's machine is still running. -/
theorem scenario_run_early :
    scenarioVM.map (fun vm => (List.range 7).all fun n => (run n vm).timedOut) = some true := by
  decide

/-! ## C1: the scenario of the specification -/

/-- C1, as stated, fails: on the scenario's machine (fresh `VM`, the program copied to
cells 0.., then `memory[10] = 5` and `memory[5] = 4`) no run, whatever its cycle budget,
returns having emitted `Output(port=1, value=6)` followed by `Output(port=2, value=4)`.
The two data cells lie inside the program: cell 5 is the address operand of the second
`LOAD` and cell 10 the register operand of `INC`. -/
theorem scenario_not_6_then_4 :
    ¬ ∃ (n : Nat) (vm s : VM), scenarioVM = some vm ∧ run n vm = .halted s ∧
        s.output = [Event.output 1 6, Event.output 2 4] := by
  rintro ⟨n, vm, s, hvm, hrun, hout⟩
  have key := scenario_run_seven
  rw [hvm] at key
  simp only [Option.some_bind] at key
  cases h7 : run 7 vm with
  | halted s0 =>
    rw [h7] at key
    simp only [Outcome.final, Option.map_some', Option.some.injEq, Prod.mk.injEq] at key
    have e1 := run_halted_mono n 7 vm s hrun
    have e2 := run_halted_mono 7 n vm s0 h7
    rw [Nat.add_comm] at e2
    rw [e1] at e2
    cases e2
    rw [hout] at key
    exact absurd key.1 (by decide)
  | undefined => rw [h7] at key; simp [Outcome.final] at key
  | outOfFuel => rw [h7] at key; simp [Outcome.final] at key

/-- C1, amended: the scenario's machine exists (the loader stays inside the memory), `run`
returns after seven fetch-execute cycles, and not earlier, with `running = false`, and
what it has emitted is exactly `Output(port=1, value=5)` followed by
`Output(port=2, value=11)`. -/
theorem scenario_emits_5_then_11 :
    ∃ vm s : VM, scenarioVM = some vm ∧
      (∀ n, n < 7 → run n vm = .outOfFuel) ∧
      (∀ n, 7 ≤ n → run n vm = .halted s) ∧
      s.output = [Event.output 1 5, Event.output 2 11] ∧
      s.running = false := by
  have hsome : scenarioVM.isSome = true := by decide
  obtain ⟨vm, hvm⟩ := Option.isSome_iff_exists.mp hsome
  have key := scenario_run_seven
  have early := scenario_run_early
  rw [hvm] at key early
  simp only [Option.some_bind, Option.map_some', Option.some.injEq] at key early
  cases h7 : run 7 vm with
  | halted s0 =>
    rw [h7] at key
    simp only [Outcome.final, Option.map_some', Option.some.injEq, Prod.mk.injEq] at key
    refine ⟨vm, s0, hvm, ?_, ?_, key.1, key.2⟩
    · intro n hn
      have hb : (run n vm).timedOut = true := by
        have := List.all_eq_true.mp early n (List.mem_range.mpr hn)
        exact this
      cases hr : run n vm with
      | outOfFuel => rfl
      | halted s1 => rw [hr] at hb; cases hb
      | undefined => rw [hr] at hb; cases hb
    · intro n hn
      obtain ⟨k, rfl⟩ : ∃ k, n = 7 + k := ⟨n - 7, by omega⟩
      exact run_halted_mono 7 k vm s0 h7
  | undefined => rw [h7] at key; simp [Outcome.final] at key
  | outOfFuel => rw [h7] at key; simp [Outcome.final] at key

/-! ## C2: ADD -/

/-- C2, as stated, fails when both operands name the same register: `ADD 0,0` with
`R0 = 1` (so `r1 = r2 = 0`, `v1 = v2 = 1`) leaves register `r2` holding 2, not `v2`. -/
theorem add_same_register_changes_r2 :
    readMem addSelfVM.memory addSelfVM.ip = some Opcode.ADD.toInt ∧
    readMem addSelfVM.memory (addSelfVM.ip + 1) = some 0 ∧
    readMem addSelfVM.memory (addSelfVM.ip + 2) = some 0 ∧
    readReg addSelfVM.registers 0 = some 1 ∧
    isInt32 1 ∧
    (step addSelfVM).bind (fun s => readReg s.registers 0) = some 2 := by
  decide

/-- C2, amended: with `ADD` at the instruction pointer followed by the operands `r1` and
`r2`, where register `r1` holds `v1` and register `r2` holds `v2` (which makes both indices
lie in `[0,8)`), one fetch-execute cycle succeeds and leaves in register `r1` the 32-bit
value congruent to `v1 + v2` modulo `2^32`; register `r2` still holds `v2` when
`r1` and `r2` are different registers. -/
theorem add_wraps (s : VM) (r1 r2 v1 v2 : Int)
    (hop : readMem s.memory s.ip = some Opcode.ADD.toInt)
    (h1 : readMem s.memory (s.ip + 1) = some r1)
    (h2 : readMem s.memory (s.ip + 2) = some r2)
    (hv1 : readReg s.registers r1 = some v1)
    (hv2 : readReg s.registers r2 = some v2) :
    ∃ (s' : VM) (w : Int), step s = some s' ∧
      readReg s'.registers r1 = some w ∧
      isInt32 w ∧ (4294967296 : Int) ∣ (w - (v1 + v2)) ∧
      (r1 ≠ r2 → readReg s'.registers r2 = some v2) := by
  obtain ⟨regs, hw, hb⟩ := binop_eq (fun a b => wrap32 (a + b)) s r1 r2 v1 v2 h1 h2 hv1 hv2
  refine ⟨{ s with ip := s.ip + 3, registers := regs }, wrap32 (v1 + v2), ?_, ?_,
    wrap32_isInt32 _, wrap32_congr _, ?_⟩
  · rw [step_eq hop]
    simp only [execute, Opcode.ofInt_toInt]
    exact hb
  · exact readReg_writeReg_self hw
  · intro hne
    show readReg regs r2 = some v2
    rw [readReg_writeReg_of_ne hw (Ne.symm hne)]
    exact hv2

/-- C2, amended, on `ADD 1,2` with `R1 = 2147483647` and `R2 = 1`. -/
theorem add_wraps_witness :
    readMem addVM.memory addVM.ip = some Opcode.ADD.toInt ∧
    readMem addVM.memory (addVM.ip + 1) = some 1 ∧
    readMem addVM.memory (addVM.ip + 2) = some 2 ∧
    readReg addVM.registers 1 = some 2147483647 ∧
    readReg addVM.registers 2 = some 1 ∧
    ∃ (s' : VM) (w : Int), step addVM = some s' ∧
      readReg s'.registers 1 = some w ∧
      isInt32 w ∧ (4294967296 : Int) ∣ (w - (2147483647 + 1)) ∧
      ((1 : Int) ≠ 2 → readReg s'.registers 2 = some 1) :=
  ⟨by decide, by decide, by decide, by decide, by decide,
    add_wraps addVM 1 2 2147483647 1 (by decide) (by decide) (by decide) (by decide)
      (by decide)⟩

/-! ## C3: cell values that are no opcode -/

/-- C3, as stated, fails: `execute` on the value 26, and on -1, returns normally with
`running` still `true`; and the machine whose cells are `26; OUT 7,0; HLT` runs on past
cell 0, executes the `OUT` and returns only at the `HLT`, after three cycles. -/
theorem unknown_opcode_runs_on :
    (execute unknownOpcodeVM 26).map (fun s => s.running) = some true ∧
    (execute unknownOpcodeVM (-1)).map (fun s => s.running) = some true ∧
    readMem unknownOpcodeVM.memory unknownOpcodeVM.ip = some 26 ∧
    (step unknownOpcodeVM).map (fun s => (s.running, s.ip, s.output)) = some (true, 1, []) ∧
    (run 3 unknownOpcodeVM).final.map (fun s => (s.running, s.ip, s.output))
      = some (false, 5, [Event.output 7 0]) := by
  decide

/-- C3, amended: for an opcode value outside `0..25`, negative values included, `execute`
returns every state unchanged; so a fetch-execute cycle at a cell holding such a value
only advances the instruction pointer by one, `running` keeps its value, and `run`
carries on with the next cell. -/
theorem unknown_opcode_is_skipped (s : VM) (op : Int)
    (hop : op < 0 ∨ 25 < op)
    (hcell : readMem s.memory s.ip = some op) :
    (∀ vm : VM, execute vm op = some vm) ∧
    step s = some { s with ip := s.ip + 1 } ∧
    (s.running = true → ∀ n, run (n + 1) s = run n { s with ip := s.ip + 1 }) := by
  have hex : ∀ vm : VM, execute vm op = some vm := by
    intro vm
    simp only [execute, Opcode.ofInt_eq_none hop]
  have hstep : step s = some { s with ip := s.ip + 1 } := by
    rw [step_eq hcell, hex]
  refine ⟨hex, hstep, ?_⟩
  intro hr n
  simp only [run, hr, if_true, hstep]

/-- C3, amended, on the machine whose cell 0 holds 26. -/
theorem unknown_opcode_is_skipped_witness :
    ((26 : Int) < 0 ∨ (25 : Int) < 26) ∧
    readMem unknownOpcodeVM.memory unknownOpcodeVM.ip = some 26 ∧
    (∀ vm : VM, execute vm 26 = some vm) ∧
    step unknownOpcodeVM = some { unknownOpcodeVM with ip := unknownOpcodeVM.ip + 1 } ∧
    (unknownOpcodeVM.running = true →
      ∀ n, run (n + 1) unknownOpcodeVM
        = run n { unknownOpcodeVM with ip := unknownOpcodeVM.ip + 1 }) :=
  ⟨by decide, by decide, unknown_opcode_is_skipped unknownOpcodeVM 26 (by decide) (by decide)⟩

/-! ## C4: CALL and RET -/

/-- C4: with `CALL` at the instruction pointer `p`, the operand `addr` at `p + 1` and `RET`
in cell `addr` (so `addr` is a valid address), two fetch-execute cycles succeed and end in
the starting state with the instruction pointer at `p + 2`: stack, registers, memory and
everything else are as before the `CALL`. -/
theorem call_ret_resumes (s : VM) (addr : Int)
    (hop : readMem s.memory s.ip = some Opcode.CALL.toInt)
    (h1 : readMem s.memory (s.ip + 1) = some addr)
    (hret : readMem s.memory addr = some Opcode.RET.toInt) :
    (step s).bind step = some { s with ip := s.ip + 2 } := by
  have hcall : step s = some { s with ip := addr, stack := (s.ip + 2) :: s.stack } := by
    rw [step_eq hop]
    simp [execute, fetch_next, h1, add_assoc]
  rw [hcall, Option.some_bind, step_eq (by exact hret)]
  simp [execute]

/-- C4 on `CALL 9` at cell 3 with `RET` in cell 9. -/
theorem call_ret_resumes_witness :
    readMem callVM.memory callVM.ip = some Opcode.CALL.toInt ∧
    readMem callVM.memory (callVM.ip + 1) = some 9 ∧
    readMem callVM.memory 9 = some Opcode.RET.toInt ∧
    (step callVM).bind step = some { callVM with ip := callVM.ip + 2 } :=
  ⟨by decide, by decide, by decide,
    call_ret_resumes callVM 9 (by decide) (by decide) (by decide)⟩

/-! ## C5: PUSH and POP -/

/-- C5: with the cells `PUSH, r, POP, r` at the instruction pointer and `r` in `[0,8)`, the
two fetch-execute cycles succeed and end in the starting state with the instruction
pointer four cells on: register `r` holds its original value and the stack, empty or
not, is the stack before the `PUSH`. -/
theorem push_pop_roundtrip (s : VM) (r : Int)
    (hr : 0 ≤ r ∧ r < 8)
    (h0 : readMem s.memory s.ip = some Opcode.PUSH.toInt)
    (h1 : readMem s.memory (s.ip + 1) = some r)
    (h2 : readMem s.memory (s.ip + 2) = some Opcode.POP.toInt)
    (h3 : readMem s.memory (s.ip + 3) = some r) :
    (step s).bind step = some { s with ip := s.ip + 4 } := by
  obtain ⟨v, hv⟩ : ∃ v, readReg s.registers r = some v := by simp [readReg, hr]
  have hpush : step s = some { s with ip := s.ip + 2, stack := v :: s.stack } := by
    rw [step_eq h0]
    simp [execute, fetch_next, h1, hv, add_assoc]
  rw [hpush, Option.some_bind, step_eq (by exact h2)]
  simp [execute, fetch_next, h3, writeReg_readReg hv, add_assoc]

/-- C5 on `PUSH 3; POP 3` with `R3 = -5` and a stack holding one entry. -/
theorem push_pop_roundtrip_witness :
    ((0 : Int) ≤ 3 ∧ (3 : Int) < 8) ∧
    readMem pushPopVM.memory pushPopVM.ip = some Opcode.PUSH.toInt ∧
    readMem pushPopVM.memory (pushPopVM.ip + 1) = some 3 ∧
    readMem pushPopVM.memory (pushPopVM.ip + 2) = some Opcode.POP.toInt ∧
    readMem pushPopVM.memory (pushPopVM.ip + 3) = some 3 ∧
    (step pushPopVM).bind step = some { pushPopVM with ip := pushPopVM.ip + 4 } :=
  ⟨by decide, by decide, by decide, by decide, by decide,
    push_pop_roundtrip pushPopVM 3 (by decide) (by decide) (by decide) (by decide)
      (by decide)⟩

/-! ## C6: CMP -/

/-- C6: with `CMP` at the instruction pointer followed by the operands `r1` and `r2`, where
register `r1` holds `v1` and register `r2` holds `v2` (any indices in `[0,8)`, equal or
not, register 0 included), one fetch-execute cycle succeeds and leaves register 0 equal
to 1 if `v1 = v2` and to 0 otherwise; every other register, the memory and the stack are
unchanged. -/
theorem cmp_sets_register0 (s : VM) (r1 r2 v1 v2 : Int)
    (hop : readMem s.memory s.ip = some Opcode.CMP.toInt)
    (h1 : readMem s.memory (s.ip + 1) = some r1)
    (h2 : readMem s.memory (s.ip + 2) = some r2)
    (hv1 : readReg s.registers r1 = some v1)
    (hv2 : readReg s.registers r2 = some v2) :
    ∃ s' : VM, step s = some s' ∧
      s'.registers 0 = (if v1 = v2 then 1 else 0) ∧
      (∀ j : Fin 8, j ≠ 0 → s'.registers j = s.registers j) ∧
      s'.memory = s.memory ∧ s'.stack = s.stack := by
  refine ⟨{ s with ip := s.ip + 3,
                   registers := fun j => if j = 0 then (if v1 = v2 then 1 else 0)
                                         else s.registers j }, ?_, ?_, ?_, rfl, rfl⟩
  · rw [step_eq hop]
    simp [execute, fetch_next, h1, h2, hv1, hv2, add_assoc]
  · simp
  · intro j hj
    simp [hj]

/-- C6 on `CMP 2,3` with `R2 = R3 = -4` and `R0 = 9`. -/
theorem cmp_sets_register0_witness :
    readMem cmpVM.memory cmpVM.ip = some Opcode.CMP.toInt ∧
    readMem cmpVM.memory (cmpVM.ip + 1) = some 2 ∧
    readMem cmpVM.memory (cmpVM.ip + 2) = some 3 ∧
    readReg cmpVM.registers 2 = some (-4) ∧
    readReg cmpVM.registers 3 = some (-4) ∧
    ∃ s' : VM, step cmpVM = some s' ∧
      s'.registers 0 = (if (-4 : Int) = -4 then 1 else 0) ∧
      (∀ j : Fin 8, j ≠ 0 → s'.registers j = cmpVM.registers j) ∧
      s'.memory = cmpVM.memory ∧ s'.stack = cmpVM.stack :=
  ⟨by decide, by decide, by decide, by decide, by decide,
    cmp_sets_register0 cmpVM 2 3 (-4) (-4) (by decide) (by decide) (by decide) (by decide)
      (by decide)⟩

/-! ## C7: JZ and JNZ -/

/-- C7: with the operand `addr` in the cell after the instruction pointer `p`, one
fetch-execute cycle of `JZ` succeeds and ends in the starting state with the instruction
pointer at `addr` if register 0 is 0 and at `p + 2` otherwise; one cycle of `JNZ` ends in
the starting state with the instruction pointer at `addr` if register 0 is not 0 and at
`p + 2` otherwise.  Registers, memory and stack are those of the starting state. -/
theorem jz_jnz_branch (s : VM) (addr : Int)
    (h1 : readMem s.memory (s.ip + 1) = some addr) :
    (readMem s.memory s.ip = some Opcode.JZ.toInt →
      step s = some { s with ip := if s.registers 0 = 0 then addr else s.ip + 2 }) ∧
    (readMem s.memory s.ip = some Opcode.JNZ.toInt →
      step s = some { s with ip := if s.registers 0 ≠ 0 then addr else s.ip + 2 }) := by
  constructor
  · intro hop
    rw [step_eq hop]
    by_cases hz : s.registers 0 = 0 <;> simp [execute, fetch_next, h1, hz, add_assoc]
  · intro hop
    rw [step_eq hop]
    by_cases hz : s.registers 0 = 0 <;> simp [execute, fetch_next, h1, hz, add_assoc]

/-- C7 on a machine with `R0 = -1`: `JZ 40` at cell 0 falls through to cell 2, and `JNZ 50`
at cell 2 jumps to cell 50. -/
theorem jz_jnz_branch_witness :
    readMem jumpVM.memory (jumpVM.ip + 1) = some 40 ∧
    readMem jumpVM.memory jumpVM.ip = some Opcode.JZ.toInt ∧
    readMem jumpVM.memory (({ jumpVM with ip := 2 } : VM).ip + 1) = some 50 ∧
    readMem jumpVM.memory ({ jumpVM with ip := 2 } : VM).ip = some Opcode.JNZ.toInt ∧
    jumpVM.registers 0 = -1 ∧
    step jumpVM = some { jumpVM with ip := 2 } ∧
    step { jumpVM with ip := 2 } = some { jumpVM with ip := 50 } :=
  ⟨by decide, by decide, by decide, by decide, by decide,
    (jz_jnz_branch jumpVM 40 (by decide)).1 (by decide),
    (jz_jnz_branch { jumpVM with ip := 2 } 50 (by decide)).2 (by decide)⟩

/-! ## C8: HLT -/

/-- C8: from a running state whose instruction pointer `p` is in range and points at a
`HLT`, `run` does not return without a cycle and returns after one fetch-execute cycle,
whatever the cycle budget: in the starting state with `running = false` and the
instruction pointer at `p + 1`.  Registers, memory and stack are unchanged and no
cell after the `HLT` has been fetched. -/
theorem hlt_halts_after_one_cycle (s : VM)
    (hrun : s.running = true)
    (hop : readMem s.memory s.ip = some Opcode.HLT.toInt) :
    run 0 s = .outOfFuel ∧
    ∀ n, run (n + 1) s = .halted { s with ip := s.ip + 1, running := false } := by
  have hstep : step s = some { s with ip := s.ip + 1, running := false } := by
    rw [step_eq hop]
    simp [execute]
  constructor
  · simp [run, hrun]
  · intro n
    simp only [run, hrun, if_true, hstep]
    cases n <;> simp [run]

/-- C8 on a machine with `HLT` at cell 2, a non-zero register and a non-empty stack. -/
theorem hlt_halts_after_one_cycle_witness :
    hltVM.running = true ∧
    readMem hltVM.memory hltVM.ip = some Opcode.HLT.toInt ∧
    run 0 hltVM = .outOfFuel ∧
    ∀ n, run (n + 1) hltVM = .halted { hltVM with ip := hltVM.ip + 1, running := false } :=
  ⟨by decide, by decide, hlt_halts_after_one_cycle hltVM (by decide) (by decide)⟩

/-! ## C9: DIV by zero -/

/-- C9: with `DIV` at the instruction pointer followed by the operands `r1` and `r2`, where
register `r2` holds 0, one fetch-execute cycle succeeds and ends in the starting state
with the instruction pointer three cells on: every register (register `r1` included),
the memory, the stack and `running` are unchanged.  Register `r1` is not even read, so
this holds for every `r1`, in particular for `r1` in `[0,8)`. -/
theorem div_by_zero_is_noop (s : VM) (r1 r2 : Int)
    (hop : readMem s.memory s.ip = some Opcode.DIV.toInt)
    (h1 : readMem s.memory (s.ip + 1) = some r1)
    (h2 : readMem s.memory (s.ip + 2) = some r2)
    (hz : readReg s.registers r2 = some 0) :
    step s = some { s with ip := s.ip + 3 } := by
  rw [step_eq hop]
  simp [execute, fetch_next, h1, h2, hz, add_assoc]

/-- C9 on `DIV 1,2` with `R1 = 12` and `R2 = 0`. -/
theorem div_by_zero_is_noop_witness :
    readMem divZeroVM.memory divZeroVM.ip = some Opcode.DIV.toInt ∧
    readMem divZeroVM.memory (divZeroVM.ip + 1) = some 1 ∧
    readMem divZeroVM.memory (divZeroVM.ip + 2) = some 2 ∧
    readReg divZeroVM.registers 2 = some 0 ∧
    step divZeroVM = some { divZeroVM with ip := divZeroVM.ip + 3 } :=
  ⟨by decide, by decide, by decide, by decide,
    div_by_zero_is_noop divZeroVM 1 2 (by decide) (by decide) (by decide) (by decide)⟩

/-! ## C10: POP and RET on an empty stack -/

/-- C10: in a state whose stack is empty, one fetch-execute cycle of `POP r` succeeds and
ends in the starting state with the instruction pointer two cells on, and one cycle of
`RET` ends in the starting state with the instruction pointer one cell on: registers
(register `r` included), memory, the still empty stack and `running` are unchanged.
`POP` does not touch register `r` here, so this holds for every operand `r`, in particular
for `r` in `[0,8)`. -/
theorem pop_ret_on_empty_stack (s : VM)
    (hst : s.stack = []) :
    (∀ r : Int, readMem s.memory s.ip = some Opcode.POP.toInt →
      readMem s.memory (s.ip + 1) = some r →
      step s = some { s with ip := s.ip + 2 }) ∧
    (readMem s.memory s.ip = some Opcode.RET.toInt →
      step s = some { s with ip := s.ip + 1 }) := by
  constructor
  · intro r hop h1
    rw [step_eq hop]
    simp [execute, fetch_next, h1, hst, add_assoc]
  · intro hop
    rw [step_eq hop]
    simp [execute, hst]

/-- C10 on `POP 4` at cell 0 and `RET` at cell 2 of a machine with an empty stack. -/
theorem pop_ret_on_empty_stack_witness :
    emptyStackVM.stack = [] ∧
    readMem emptyStackVM.memory emptyStackVM.ip = some Opcode.POP.toInt ∧
    readMem emptyStackVM.memory (emptyStackVM.ip + 1) = some 4 ∧
    step emptyStackVM = some { emptyStackVM with ip := emptyStackVM.ip + 2 } ∧
    readMem emptyStackVM.memory ({ emptyStackVM with ip := 2 } : VM).ip
      = some Opcode.RET.toInt ∧
    step { emptyStackVM with ip := 2 } = some { emptyStackVM with ip := 3 } :=
  ⟨by decide, by decide, by decide,
    (pop_ret_on_empty_stack emptyStackVM (by decide)).1 4 (by decide) (by decide),
    by decide,
    (pop_ret_on_empty_stack { emptyStackVM with ip := 2 } (by decide)).2 (by decide)⟩

/-! ## Instructions with operands in range -/

theorem operandsOkFrom_cons {m : Fin 65536 → Int} {p : Int} {k : OperandKind}
    {ks : List OperandKind} (h : operandsOkFrom m p (k :: ks) = true) :
    ∃ v, readMem m p = some v ∧ operandOk k v = true ∧ operandsOkFrom m (p + 1) ks = true := by
  unfold operandsOkFrom at h
  split at h
  · cases h
  · rename_i v hv
    simp only [Bool.and_eq_true] at h
    exact ⟨v, hv, h.1, h.2⟩

theorem operandsOk_one {s : VM} {k : OperandKind}
    (h : operandsOkFrom s.memory (s.ip + 1) [k] = true) :
    ∃ a, readMem s.memory (s.ip + 1) = some a ∧ operandOk k a = true := by
  obtain ⟨a, h1, ha, -⟩ := operandsOkFrom_cons h
  exact ⟨a, h1, ha⟩

theorem operandsOk_two {s : VM} {k1 k2 : OperandKind}
    (h : operandsOkFrom s.memory (s.ip + 1) [k1, k2] = true) :
    ∃ a b, readMem s.memory (s.ip + 1) = some a ∧ readMem s.memory (s.ip + 2) = some b ∧
      operandOk k1 a = true ∧ operandOk k2 b = true := by
  obtain ⟨a, h1, ha, h'⟩ := operandsOkFrom_cons h
  obtain ⟨b, h2, hb, -⟩ := operandsOkFrom_cons h'
  rw [add_assoc] at h2
  exact ⟨a, b, h1, h2, ha, hb⟩

theorem readMem_isSome (m : Fin 65536 → Int) {a : Int} (h : 0 ≤ a ∧ a < 65536) :
    ∃ v, readMem m a = some v := by
  simp [readMem, h]

theorem writeMem_isSome (m : Fin 65536 → Int) {a : Int} (h : 0 ≤ a ∧ a < 65536) (v : Int) :
    ∃ m', writeMem m a v = some m' := by
  simp [writeMem, h]

theorem readReg_isSome (regs : Fin 8 → Int) {r : Int} (h : 0 ≤ r ∧ r < 8) :
    ∃ v, readReg regs r = some v := by
  simp [readReg, h]

/-- What one fetch-execute cycle does to the memory, the running flag and the instruction
pointer when the operands are in range and, for `DIV`, the quotient is representable. -/
theorem step_of_operandsOk (s : VM) (op : Opcode)
    (hop : readMem s.memory s.ip = some op.toInt)
    (hok : operandsOk s op = true)
    (hdiv : op = .DIV → divOverflow s = false) :
    ∃ s', step s = some s' ∧
      (op ≠ .STORE → s'.memory = s.memory) ∧
      (op ≠ .HLT → s'.running = s.running) ∧
      (transfers s op = false → s'.ip = s.ip + 1 + op.arity) := by
  rw [step_eq hop]
  cases op
  case LOAD =>
    obtain ⟨a, b, h1, h2, ha, hb⟩ :=
      operandsOk_two (show operandsOkFrom s.memory (s.ip + 1) [.reg, .addr] = true from hok)
    simp only [operandOk, decide_eq_true_eq] at ha hb
    obtain ⟨v, hv⟩ := readMem_isSome s.memory hb
    simp [execute, fetch_next, h1, h2, hv, writeReg, ha, add_assoc, Opcode.arity, transfers]
  case STORE =>
    obtain ⟨a, b, h1, h2, ha, hb⟩ :=
      operandsOk_two (show operandsOkFrom s.memory (s.ip + 1) [.reg, .addr] = true from hok)
    simp only [operandOk, decide_eq_true_eq] at ha hb
    simp [execute, fetch_next, h1, h2, readReg, writeMem, ha, hb, add_assoc, Opcode.arity,
      transfers]
  case MOV =>
    obtain ⟨a, b, h1, h2, ha, hb⟩ :=
      operandsOk_two (show operandsOkFrom s.memory (s.ip + 1) [.reg, .reg] = true from hok)
    simp only [operandOk, decide_eq_true_eq] at ha hb
    simp [execute, binop, fetch_next, h1, h2, readReg, writeReg, ha, hb, add_assoc,
      Opcode.arity, transfers]
  case PUSH =>
    obtain ⟨a, h1, ha⟩ :=
      operandsOk_one (show operandsOkFrom s.memory (s.ip + 1) [.reg] = true from hok)
    simp only [operandOk, decide_eq_true_eq] at ha
    simp [execute, fetch_next, h1, readReg, writeReg, ha, add_assoc, Opcode.arity, transfers]
  case POP =>
    obtain ⟨a, h1, ha⟩ :=
      operandsOk_one (show operandsOkFrom s.memory (s.ip + 1) [.reg] = true from hok)
    simp only [operandOk, decide_eq_true_eq] at ha
    cases hst : s.stack <;>
      simp [execute, fetch_next, h1, writeReg, ha, hst, add_assoc, Opcode.arity, transfers]
  case ADD =>
    obtain ⟨a, b, h1, h2, ha, hb⟩ :=
      operandsOk_two (show operandsOkFrom s.memory (s.ip + 1) [.reg, .reg] = true from hok)
    simp only [operandOk, decide_eq_true_eq] at ha hb
    simp [execute, binop, fetch_next, h1, h2, readReg, writeReg, ha, hb, add_assoc,
      Opcode.arity, transfers]
  case SUB =>
    obtain ⟨a, b, h1, h2, ha, hb⟩ :=
      operandsOk_two (show operandsOkFrom s.memory (s.ip + 1) [.reg, .reg] = true from hok)
    simp only [operandOk, decide_eq_true_eq] at ha hb
    simp [execute, binop, fetch_next, h1, h2, readReg, writeReg, ha, hb, add_assoc,
      Opcode.arity, transfers]
  case MUL =>
    obtain ⟨a, b, h1, h2, ha, hb⟩ :=
      operandsOk_two (show operandsOkFrom s.memory (s.ip + 1) [.reg, .reg] = true from hok)
    simp only [operandOk, decide_eq_true_eq] at ha hb
    simp [execute, binop, fetch_next, h1, h2, readReg, writeReg, ha, hb, add_assoc,
      Opcode.arity, transfers]
  case DIV =>
    obtain ⟨a, b, h1, h2, ha, hb⟩ :=
      operandsOk_two (show operandsOkFrom s.memory (s.ip + 1) [.reg, .reg] = true from hok)
    simp only [operandOk, decide_eq_true_eq] at ha hb
    obtain ⟨va, hva⟩ := readReg_isSome s.registers ha
    obtain ⟨vb, hvb⟩ := readReg_isSome s.registers hb
    have hdo := hdiv rfl
    simp only [divOverflow, h1, h2, hva, hvb, Option.some.injEq, decide_eq_false_iff_not]
      at hdo
    by_cases hz : vb = 0
    · simp [execute, fetch_next, h1, h2, hvb, hz, add_assoc, Opcode.arity, transfers]
    · simp [execute, fetch_next, h1, h2, hva, hvb, hz, hdo, writeReg, ha, add_assoc,
        Opcode.arity, transfers]
  case INC =>
    obtain ⟨a, h1, ha⟩ :=
      operandsOk_one (show operandsOkFrom s.memory (s.ip + 1) [.reg] = true from hok)
    simp only [operandOk, decide_eq_true_eq] at ha
    simp [execute, fetch_next, h1, readReg, writeReg, ha, add_assoc, Opcode.arity, transfers]
  case DEC =>
    obtain ⟨a, h1, ha⟩ :=
      operandsOk_one (show operandsOkFrom s.memory (s.ip + 1) [.reg] = true from hok)
    simp only [operandOk, decide_eq_true_eq] at ha
    simp [execute, fetch_next, h1, readReg, writeReg, ha, add_assoc, Opcode.arity, transfers]
  case JMP =>
    obtain ⟨a, h1, -⟩ :=
      operandsOk_one (show operandsOkFrom s.memory (s.ip + 1) [.addr] = true from hok)
    simp [execute, fetch_next, h1, add_assoc, Opcode.arity, transfers]
  case JZ =>
    obtain ⟨a, h1, -⟩ :=
      operandsOk_one (show operandsOkFrom s.memory (s.ip + 1) [.addr] = true from hok)
    by_cases hz : s.registers 0 = 0 <;>
      simp [execute, fetch_next, h1, hz, add_assoc, Opcode.arity, transfers]
  case JNZ =>
    obtain ⟨a, h1, -⟩ :=
      operandsOk_one (show operandsOkFrom s.memory (s.ip + 1) [.addr] = true from hok)
    by_cases hz : s.registers 0 = 0 <;>
      simp [execute, fetch_next, h1, hz, add_assoc, Opcode.arity, transfers]
  case CALL =>
    obtain ⟨a, h1, -⟩ :=
      operandsOk_one (show operandsOkFrom s.memory (s.ip + 1) [.addr] = true from hok)
    simp [execute, fetch_next, h1, add_assoc, Opcode.arity, transfers]
  case RET =>
    cases hst : s.stack <;> simp [execute, hst, Opcode.arity, transfers]
  case CMP =>
    obtain ⟨a, b, h1, h2, ha, hb⟩ :=
      operandsOk_two (show operandsOkFrom s.memory (s.ip + 1) [.reg, .reg] = true from hok)
    simp only [operandOk, decide_eq_true_eq] at ha hb
    simp [execute, binop, fetch_next, h1, h2, readReg, writeReg, ha, hb, add_assoc,
      Opcode.arity, transfers]
  case AND =>
    obtain ⟨a, b, h1, h2, ha, hb⟩ :=
      operandsOk_two (show operandsOkFrom s.memory (s.ip + 1) [.reg, .reg] = true from hok)
    simp only [operandOk, decide_eq_true_eq] at ha hb
    simp [execute, binop, fetch_next, h1, h2, readReg, writeReg, ha, hb, add_assoc,
      Opcode.arity, transfers]
  case OR =>
    obtain ⟨a, b, h1, h2, ha, hb⟩ :=
      operandsOk_two (show operandsOkFrom s.memory (s.ip + 1) [.reg, .reg] = true from hok)
    simp only [operandOk, decide_eq_true_eq] at ha hb
    simp [execute, binop, fetch_next, h1, h2, readReg, writeReg, ha, hb, add_assoc,
      Opcode.arity, transfers]
  case XOR =>
    obtain ⟨a, b, h1, h2, ha, hb⟩ :=
      operandsOk_two (show operandsOkFrom s.memory (s.ip + 1) [.reg, .reg] = true from hok)
    simp only [operandOk, decide_eq_true_eq] at ha hb
    simp [execute, binop, fetch_next, h1, h2, readReg, writeReg, ha, hb, add_assoc,
      Opcode.arity, transfers]
  case NOT =>
    obtain ⟨a, h1, ha⟩ :=
      operandsOk_one (show operandsOkFrom s.memory (s.ip + 1) [.reg] = true from hok)
    simp only [operandOk, decide_eq_true_eq] at ha
    simp [execute, fetch_next, h1, readReg, writeReg, ha, add_assoc, Opcode.arity, transfers]
  case INT =>
    obtain ⟨a, h1, -⟩ :=
      operandsOk_one (show operandsOkFrom s.memory (s.ip + 1) [.value] = true from hok)
    simp [execute, fetch_next, h1, add_assoc, Opcode.arity, transfers]
  case HLT => simp [execute, Opcode.arity, transfers]
  case NOP => simp [execute, Opcode.arity, transfers]
  case IN =>
    obtain ⟨a, b, h1, h2, ha, -⟩ :=
      operandsOk_two (show operandsOkFrom s.memory (s.ip + 1) [.reg, .value] = true from hok)
    simp only [operandOk, decide_eq_true_eq] at ha
    rcases hx : extractInt s.input s.inputOk with ⟨_ | v, inp, ok⟩ <;>
      simp [execute, fetch_next, h1, h2, readReg, writeReg, ha, hx, add_assoc,
        Opcode.arity, transfers]
  case OUT =>
    obtain ⟨a, b, h1, h2, -, hb⟩ :=
      operandsOk_two (show operandsOkFrom s.memory (s.ip + 1) [.value, .reg] = true from hok)
    simp only [operandOk, decide_eq_true_eq] at hb
    simp [execute, fetch_next, h1, h2, readReg, hb, add_assoc, Opcode.arity, transfers]

/-! ## What `execute` leaves alone whenever it returns -/

theorem fetch_next_eq_some_iff {vm : VM} {p : Int × VM} :
    fetch_next vm = some p ↔
      readMem vm.memory vm.ip = some p.1 ∧ p.2 = { vm with ip := vm.ip + 1 } := by
  unfold fetch_next
  split
  · rename_i h
    simp [h]
  · rename_i w hw
    obtain ⟨v, vm'⟩ := p
    simp only [Option.some.injEq, Prod.mk.injEq, hw]
    constructor
    · rintro ⟨rfl, rfl⟩
      exact ⟨rfl, rfl⟩
    · rintro ⟨h1, h2⟩
      exact ⟨h1, h2.symm⟩

set_option maxHeartbeats 1000000 in
/-- Whenever `execute` returns, it has left `running` alone unless the opcode is `HLT`. -/
theorem execute_running {vm : VM} {i : Int} (hi : Opcode.ofInt i ≠ some .HLT) :
    ∀ s', execute vm i = some s' → s'.running = vm.running := by
  cases hop : Opcode.ofInt i with
  | none =>
    intro s' h
    simp only [execute, hop, Option.some.injEq] at h
    rw [← h]
  | some op =>
    simp only [execute, hop]
    cases op
    case HLT => exact absurd hop hi
    all_goals simp [binop, Option.bind_eq_some, fetch_next_eq_some_iff]
    all_goals (intros; first | (subst_vars; rfl) | skip)
    all_goals (rename_i hres; split at hres)
    all_goals (simp only [Option.bind_eq_some, Option.some.injEq] at hres)
    all_goals first
      | (subst hres; rfl)
      | (obtain ⟨_, _, rfl⟩ := hres; rfl)
      | skip
    -- what is left is `DIV` with a non-zero divisor
    obtain ⟨_, _, hres⟩ := hres
    split at hres
    · cases hres
    · simp only [Option.bind_eq_some, Option.some.injEq] at hres
      obtain ⟨_, _, rfl⟩ := hres
      rfl

/-! ## How many cells an instruction fetches -/

/-- Every opcode fetches its last operand cell: when that cell cannot be fetched the cycle
has no result. -/
theorem step_none_of_unreadable_operand (s : VM) (op : Opcode)
    (hop : readMem s.memory s.ip = some op.toInt)
    (h1 : 1 ≤ op.arity)
    (hn : readMem s.memory (s.ip + op.arity) = none) : step s = none := by
  rw [step_eq hop]
  cases op <;> simp only [Opcode.arity] at h1 hn
  all_goals first
    | exact absurd h1 (by decide)
    | (simp [execute, fetch_next, hn]; done)
    | (cases h1' : readMem s.memory (s.ip + 1) <;>
        simp [execute, binop, fetch_next, h1', hn, add_assoc])

/-- Where a returning `JMP`, `CALL`, `JZ` or `JNZ` that transfers control ends, and what `CALL`
pushes. -/
theorem step_jump (s s' : VM) (op : Opcode)
    (hop : readMem s.memory s.ip = some op.toInt)
    (hs : step s = some s')
    (ht : transfers s op = true) (hret : op ≠ .RET) :
    readMem s.memory (s.ip + 1) = some s'.ip ∧
    (op = .CALL → s'.stack = (s.ip + 1 + op.arity) :: s.stack) := by
  rw [step_eq hop] at hs
  cases op <;> simp only [transfers, decide_eq_true_eq] at ht
  all_goals first
    | exact absurd ht (by decide)
    | exact absurd rfl hret
    | skip
  all_goals
    cases h1 : readMem s.memory (s.ip + 1) with
    | none => simp [execute, fetch_next, h1] at hs
    | some a =>
      simp [execute, fetch_next, h1, ht, add_assoc] at hs
      subst hs
      simp [Opcode.arity, add_assoc]

/-! ## Bounded runs and their cycles -/

/-- A run that hit an out-of-bounds access within `n` cycles does so with any larger
budget. -/
theorem run_undefined_mono (n k : Nat) : ∀ vm : VM, run n vm = .undefined →
    run (n + k) vm = .undefined := by
  induction n with
  | zero =>
    intro vm h
    simp only [run] at h
    split at h <;> cases h
  | succ n ih =>
    intro vm h
    rw [Nat.add_right_comm]
    simp only [run] at h ⊢
    split
    · rename_i hr
      simp only [hr, if_true] at h
      cases hs : step vm with
      | none => rfl
      | some vm' =>
        simp only [hs] at h ⊢
        exact ih vm' h
    · rename_i hr
      simp only [hr] at h
      cases h

theorem Opcode.ofInt_eq_some {i : Int} {op : Opcode} (h : Opcode.ofInt i = some op) :
    i = op.toInt := by
  by_cases hneg : i < 0
  · simp [Opcode.ofInt, hneg] at h
  · by_cases hbig : 25 < i
    · rw [Opcode.ofInt_eq_none (Or.inr hbig)] at h
      cases h
    · have h0 : 0 ≤ i := by omega
      have h25 : i ≤ 25 := by omega
      interval_cases i <;> simp [Opcode.ofInt] at h <;> subst h <;> rfl

theorem step_some {s s1 : VM} (h : step s = some s1) :
    ∃ i, readMem s.memory s.ip = some i ∧ execute { s with ip := s.ip + 1 } i = some s1 := by
  unfold step fetch_next at h
  cases hm : readMem s.memory s.ip with
  | none => simp [hm] at h
  | some i =>
    simp only [hm] at h
    exact ⟨i, rfl, h⟩

/-- A bounded run that returned went through its cycles and ended with `running` cleared. -/
theorem run_halted_cycles (n : Nat) : ∀ s s' : VM, run n s = .halted s' →
    cycles n s = some s' ∧ s'.running = false := by
  induction n with
  | zero =>
    intro s s' h
    simp only [run] at h
    split at h
    · cases h
    · rename_i hr
      cases h
      exact ⟨rfl, by simp only [Bool.not_eq_true] at hr; exact hr⟩
  | succ n ih =>
    intro s s' h
    simp only [run] at h
    simp only [cycles]
    split at h
    · rename_i hr
      cases hs : step s with
      | none => simp [hs] at h
      | some s1 =>
        simp only [hs] at h
        simp only [hr, if_true, hs, Option.some_bind]
        exact ih s1 s' h
    · rename_i hr
      cases h
      simp only [hr]
      exact ⟨rfl, trivial⟩

/-- If the loop of `run` has cleared `running`, one of its cycles fetched `HLT`. -/
theorem cycles_halt_fetches_hlt (n : Nat) : ∀ s s' : VM, s.running = true →
    cycles n s = some s' → s'.running = false →
    ∃ (k : Nat) (sk : VM), k < n ∧ cycles k s = some sk ∧ sk.running = true ∧
      readMem sk.memory sk.ip = some Opcode.HLT.toInt := by
  induction n with
  | zero =>
    intro s s' hr h hf
    simp only [cycles, Option.some.injEq] at h
    rw [← h, hr] at hf
    cases hf
  | succ n ih =>
    intro s s' hr h hf
    simp only [cycles, hr, if_true] at h
    cases hs : step s with
    | none => simp [hs] at h
    | some s1 =>
      simp only [hs, Option.some_bind] at h
      obtain ⟨i, hcell, hex⟩ := step_some hs
      by_cases hi : i = Opcode.HLT.toInt
      · exact ⟨0, s, Nat.succ_pos n, rfl, hr, by rw [hcell, hi]⟩
      · have hne : Opcode.ofInt i ≠ some .HLT := fun e => hi (Opcode.ofInt_eq_some e)
        have hr1 : s1.running = true := by
          rw [execute_running hne s1 hex]
          exact hr
        obtain ⟨k, sk, hk, hck, hrk, hcellk⟩ := ih s1 s' hr1 h hf
        refine ⟨k + 1, sk, Nat.succ_lt_succ hk, ?_, hrk, hcellk⟩
        simp only [cycles, hr, if_true, hs, Option.some_bind]
        exact hck

/-! ## Memory cells after a write -/

theorem readMem_writeMem_self {m m' : Fin 65536 → Int} {a v : Int}
    (h : writeMem m a v = some m') : readMem m' a = some v := by
  unfold writeMem at h
  split at h
  · rename_i ha
    cases h
    simp [readMem, ha]
  · cases h

theorem writeMem_frame {m m' : Fin 65536 → Int} {a v : Int}
    (h : writeMem m a v = some m') (j : Fin 65536) (hj : (j.val : Int) ≠ a) :
    m' j = m j := by
  unfold writeMem at h
  split at h
  · rename_i ha
    cases h
    have : j ≠ ⟨a.toNat, by omega⟩ := by
      intro e
      apply hj
      rw [e]
      simp
      omega
    simp [this]
  · cases h

theorem readMem_writeMem_of_ne {m m' : Fin 65536 → Int} {a a' v : Int}
    (h : writeMem m a v = some m') (hne : a' ≠ a) :
    readMem m' a' = readMem m a' := by
  unfold readMem
  split
  · rename_i ha
    rw [writeMem_frame h]
    simp
    omega
  · rfl

/-! ## 32-bit results of division and of the bitwise operations -/

/-- The truncated quotient of two 32-bit values fits 32 bits, except for `-2^31 / -1`. -/
theorem tdiv_isInt32 {a b : Int} (ha : isInt32 a) (hb : b ≠ 0)
    (hno : ¬ (a = -2147483648 ∧ b = -1)) : isInt32 (Int.tdiv a b) := by
  unfold isInt32 at *
  have hq : (Int.tdiv a b).natAbs = a.natAbs / b.natAbs := Int.natAbs_tdiv a b
  have hb1 : 1 ≤ b.natAbs := Int.natAbs_pos.mpr hb
  have hle : a.natAbs / b.natAbs ≤ a.natAbs := Nat.div_le_self _ _
  by_cases hbig : a.natAbs = 2147483648
  · -- `a = -2^31`
    have ha' : a = -2147483648 := by omega
    subst ha'
    by_cases hb' : b = 1
    · subst hb'
      decide
    · have hb2 : 2 ≤ b.natAbs := by omega
      have : (2147483648 : Nat) / b.natAbs < 2147483648 :=
        Nat.div_lt_self (by decide) hb2
      rw [hbig] at hq
      omega
  · omega

theorem land_isInt32 {a b : Int} (ha : isInt32 a) (hb : isInt32 b) :
    isInt32 (Int.land a b) := by
  unfold isInt32 at *
  have key : ∀ x y : Nat, x < 2 ^ 31 → y < 2 ^ 31 →
      x &&& y < 2 ^ 31 ∧ x ||| y < 2 ^ 31 ∧ Nat.ldiff x y < 2 ^ 31 := fun x y hx hy =>
    ⟨Nat.and_lt_two_pow x hy, Nat.or_lt_two_pow hx hy, Nat.bitwise_lt_two_pow hx hy⟩
  rcases a with m | m <;> rcases b with n | n <;>
    simp only [Int.land, Int.ofNat_eq_coe, Int.negSucc_eq] at * <;>
    have := key m n (by omega) (by omega) <;>
    have := key n m (by omega) (by omega) <;>
    omega

theorem lor_isInt32 {a b : Int} (ha : isInt32 a) (hb : isInt32 b) :
    isInt32 (Int.lor a b) := by
  unfold isInt32 at *
  have key : ∀ x y : Nat, x < 2 ^ 31 → y < 2 ^ 31 →
      x &&& y < 2 ^ 31 ∧ x ||| y < 2 ^ 31 ∧ Nat.ldiff x y < 2 ^ 31 := fun x y hx hy =>
    ⟨Nat.and_lt_two_pow x hy, Nat.or_lt_two_pow hx hy, Nat.bitwise_lt_two_pow hx hy⟩
  rcases a with m | m <;> rcases b with n | n <;>
    simp only [Int.lor, Int.ofNat_eq_coe, Int.negSucc_eq] at * <;>
    have := key m n (by omega) (by omega) <;>
    have := key n m (by omega) (by omega) <;>
    omega

theorem xor_isInt32 {a b : Int} (ha : isInt32 a) (hb : isInt32 b) :
    isInt32 (Int.xor a b) := by
  unfold isInt32 at *
  have key : ∀ x y : Nat, x < 2 ^ 31 → y < 2 ^ 31 → x ^^^ y < 2 ^ 31 := fun x y hx hy =>
    Nat.xor_lt_two_pow hx hy
  rcases a with m | m <;> rcases b with n | n <;>
    simp only [Int.xor, Int.ofNat_eq_coe, Int.negSucc_eq] at * <;>
    have := key m n (by omega) (by omega) <;>
    omega

theorem xor_self_eq_zero (a : Int) : Int.xor a a = 0 := by
  rcases a with m | m <;> simp [Int.xor]

/-- Truncated division is the quotient of the magnitudes, with the sign of the exact
quotient: the rounding is toward zero. -/
theorem tdiv_eq_sign_mul (a b : Int) :
    Int.tdiv a b = a.sign * b.sign * ((a.natAbs / b.natAbs : Nat) : Int) := by
  rcases a with m | m <;> rcases b with n | n
  · rcases m with _ | m <;> rcases n with _ | n <;> simp [Int.tdiv, Int.sign]
    rw [abs_of_nonneg (by positivity), abs_of_nonneg (by positivity)]
  · rcases m with _ | m <;> simp [Int.tdiv, Int.sign, Int.natAbs]
  · rcases n with _ | n <;> simp [Int.tdiv, Int.sign, Int.natAbs]
  · simp [Int.tdiv, Int.sign, Int.natAbs]

/-! ## C11: the fetch unit -/

/-- C11: in every state whose instruction pointer lies in `[0,65536)`, `fetch_next` returns
the value the cell `memory[ip]` held before the call, whatever that value is, and leaves
the state with the instruction pointer increased by exactly 1; memory, registers, stack
and `running` are those of the state before. -/
theorem fetch_next_contract (s : VM) (h : 0 ≤ s.ip ∧ s.ip < 65536) :
    fetch_next s = some (s.memory ⟨s.ip.toNat, by omega⟩, { s with ip := s.ip + 1 }) := by
  simp [fetch_next, readMem, h]

/-- C11 on a machine whose instruction pointer stands at cell 2, which holds 22. -/
theorem fetch_next_contract_witness :
    (0 ≤ hltVM.ip ∧ hltVM.ip < 65536) ∧
    fetch_next hltVM = some (22, { hltVM with ip := hltVM.ip + 1 }) :=
  ⟨by decide, fetch_next_contract hltVM (by decide)⟩

/-! ## C12: memory accesses outside the array -/

/-- C12, as stated, fails: the source performs the access without any check.  No state
with `running = false` comes out of a fetch at `ip = 65536` (reached by `JMP 65536` from
a fresh machine) or of `LOAD 0,70000` or `STORE 0,-1`: the cycle has no defined result
and `run` never returns, whatever its cycle budget. -/
theorem out_of_range_access_no_fault :
    (step jmpOutVM).map (fun s => (s.ip, s.running)) = some (65536, true) ∧
    ((step jmpOutVM).bind step).isNone = true ∧
    (¬ ∃ (n : Nat) (s : VM), run n jmpOutVM = .halted s) ∧
    loadOutVM.atIp = (some Opcode.LOAD.toInt, some 0, some 70000) ∧
    (step loadOutVM).isNone = true ∧
    (¬ ∃ (n : Nat) (s : VM), run n loadOutVM = .halted s) ∧
    storeOutVM.atIp = (some Opcode.STORE.toInt, some 0, some (-1)) ∧
    (step storeOutVM).isNone = true ∧
    (¬ ∃ (n : Nat) (s : VM), run n storeOutVM = .halted s) := by
  have never : ∀ (m : Nat) (vm : VM), run m vm = .undefined →
      ¬ ∃ (n : Nat) (s : VM), run n vm = .halted s := by
    rintro m vm hu ⟨n, s, hn⟩
    have e1 := run_undefined_mono m n vm hu
    have e2 := run_halted_mono n m vm s hn
    rw [Nat.add_comm, e1] at e2
    cases e2
  refine ⟨by decide, by decide, never 2 _ rfl, by decide, by decide, never 1 _ rfl,
    by decide, by decide, never 1 _ rfl⟩

/-- C12, amended: the accesses are unchecked.  When the instruction pointer lies outside
`[0,65536)` the fetch, and with it the whole cycle, has no defined result; the same holds
for `LOAD` and `STORE` when their address operand lies outside `[0,65536)`.  In both cases
no fault is raised, no state with `running = false` is produced, and `run` from a running
state has no defined result either. -/
theorem out_of_range_access_undefined (s : VM) :
    (¬ (0 ≤ s.ip ∧ s.ip < 65536) →
      fetch_next s = none ∧ step s = none ∧
      (s.running = true → ∀ n, run (n + 1) s = .undefined)) ∧
    (∀ (op : Opcode) (r a : Int), op = .LOAD ∨ op = .STORE →
      readMem s.memory s.ip = some op.toInt →
      readMem s.memory (s.ip + 1) = some r →
      readMem s.memory (s.ip + 2) = some a →
      ¬ (0 ≤ a ∧ a < 65536) →
      step s = none ∧ (s.running = true → ∀ n, run (n + 1) s = .undefined)) := by
  have hrun : step s = none → s.running = true → ∀ n, run (n + 1) s = .undefined := by
    intro hs hr n
    simp only [run, hr, if_true, hs]
  constructor
  · intro hip
    have hf : fetch_next s = none := by simp [fetch_next, readMem, hip]
    have hs : step s = none := by simp [step, hf]
    exact ⟨hf, hs, hrun hs⟩
  · intro op r a hop hcell h1 h2 ha
    have hs : step s = none := by
      rw [step_eq hcell]
      rcases hop with rfl | rfl
      · have hm : readMem s.memory a = none := by simp [readMem, ha]
        simp [execute, fetch_next, h1, h2, hm, add_assoc]
      · have hw : ∀ v, writeMem s.memory a v = none := by
          intro v
          simp [writeMem, ha]
        simp [execute, fetch_next, h1, h2, hw, add_assoc]
    exact ⟨hs, hrun hs⟩

/-- C12, amended, on the state `JMP 65536` leads to and on `LOAD 0,70000`. -/
theorem out_of_range_access_undefined_witness :
    ¬ (0 ≤ ({ jmpOutVM with ip := 65536 } : VM).ip ∧
        ({ jmpOutVM with ip := 65536 } : VM).ip < 65536) ∧
    step { jmpOutVM with ip := 65536 } = none ∧
    ((Opcode.LOAD = .LOAD ∨ Opcode.LOAD = .STORE) ∧
      loadOutVM.atIp = (some Opcode.LOAD.toInt, some 0, some 70000) ∧
      ¬ (0 ≤ (70000 : Int) ∧ (70000 : Int) < 65536)) ∧
    step loadOutVM = none :=
  ⟨by decide,
    (((out_of_range_access_undefined { jmpOutVM with ip := 65536 }).1) (by decide)).2.1,
    ⟨by decide, by decide, by decide⟩,
    (((out_of_range_access_undefined loadOutVM).2) .LOAD 0 70000 (by decide) (by decide)
      (by decide) (by decide) (by decide)).1⟩

/-! ## C13: register operands outside the register file -/

/-- C13, as stated, fails: `POP 9` on an empty stack is executed like any `POP` on an empty
stack.  `execute` returns normally, `running` stays `true`, and `run` goes on to the `HLT`
in the next cell and returns after two cycles with the registers untouched. -/
theorem pop_bad_register_no_fault :
    popBadRegVM.atIp = (some Opcode.POP.toInt, some 9, some Opcode.HLT.toInt) ∧
    popBadRegVM.stack = [] ∧
    (step popBadRegVM).map (fun s => (s.running, s.ip, s.stack)) = some (true, 2, []) ∧
    (run 2 popBadRegVM).final.map (fun s => (s.running, s.ip, s.registers 0))
      = some (false, 3, 3) := by
  decide

/-- C13, amended: register operands are not range-checked, and no opcode raises a fault or
clears `running` because of one.  With `a` and `b` the two cells after the opcode cell:
where the handler indexes the register file with an operand outside `[0,8)`, the cycle
has no defined result (`PUSH`, `INC`, `DEC`, `NOT` and `POP` on a non-empty stack for `a`;
`LOAD`, `STORE`, `IN`, `MOV`, `ADD`, `SUB`, `MUL`, `CMP`, `AND`, `OR`, `XOR` for `a`; those from
`MOV` on, `DIV` and `OUT` for `b`; `DIV` with a non-zero divisor for `a`); where it does not
index it (`POP` on an empty stack, the first operand of `DIV` with a zero divisor), the
cycle is the usual no-op that only advances the instruction pointer. -/
theorem register_operand_unchecked (s : VM) (a b : Int)
    (h1 : readMem s.memory (s.ip + 1) = some a) :
    (∀ op : Opcode, op ∈ [Opcode.PUSH, .INC, .DEC, .NOT] →
      readMem s.memory s.ip = some op.toInt → ¬ (0 ≤ a ∧ a < 8) → step s = none) ∧
    (readMem s.memory s.ip = some Opcode.POP.toInt → ¬ (0 ≤ a ∧ a < 8) →
      step s = if s.stack = [] then some { s with ip := s.ip + 2 } else none) ∧
    (readMem s.memory (s.ip + 2) = some b →
      (∀ op : Opcode,
        op ∈ [Opcode.LOAD, .STORE, .IN, .MOV, .ADD, .SUB, .MUL, .CMP, .AND, .OR, .XOR] →
        readMem s.memory s.ip = some op.toInt → ¬ (0 ≤ a ∧ a < 8) → step s = none) ∧
      (∀ op : Opcode,
        op ∈ [Opcode.MOV, .ADD, .SUB, .MUL, .DIV, .CMP, .AND, .OR, .XOR, .OUT] →
        readMem s.memory s.ip = some op.toInt → ¬ (0 ≤ b ∧ b < 8) → step s = none) ∧
      (∀ v : Int, readMem s.memory s.ip = some Opcode.DIV.toInt → ¬ (0 ≤ a ∧ a < 8) →
        readReg s.registers b = some v →
        step s = if v = 0 then some { s with ip := s.ip + 3 } else none)) := by
  refine ⟨?_, ?_, ?_⟩
  · intro op hmem hop ha
    rw [step_eq hop]
    simp only [List.mem_cons, List.mem_singleton, List.not_mem_nil, or_false] at hmem
    rcases hmem with rfl | rfl | rfl | rfl <;>
      simp [execute, fetch_next, h1, readReg, ha]
  · intro hop ha
    rw [step_eq hop]
    cases hst : s.stack <;> simp [execute, fetch_next, h1, writeReg, ha, hst, add_assoc]
  · intro h2
    refine ⟨?_, ?_, ?_⟩
    · intro op hmem hop ha
      rw [step_eq hop]
      simp only [List.mem_cons, List.mem_singleton, List.not_mem_nil, or_false] at hmem
      rcases hmem with rfl | rfl | rfl | rfl | rfl | rfl | rfl | rfl | rfl | rfl | rfl
      · cases hm : readMem s.memory b <;>
          simp [execute, fetch_next, h1, h2, hm, writeReg, ha, add_assoc]
      all_goals
        simp [execute, binop, fetch_next, h1, h2, readReg, writeReg, ha, add_assoc]
    · intro op hmem hop hb
      rw [step_eq hop]
      simp only [List.mem_cons, List.mem_singleton, List.not_mem_nil, or_false] at hmem
      rcases hmem with rfl | rfl | rfl | rfl | rfl | rfl | rfl | rfl | rfl | rfl
      all_goals
        simp [execute, binop, fetch_next, h1, h2, readReg, hb, add_assoc]
    · intro v hop ha hv
      rw [step_eq hop]
      have hra : readReg s.registers a = none := by simp [readReg, ha]
      by_cases hz : v = 0 <;>
        simp [execute, fetch_next, h1, h2, hv, hz, hra, add_assoc]

/-- C13, amended, on `INC 8` and on `POP 9` with an empty stack. -/
theorem register_operand_unchecked_witness :
    readMem incBadRegVM.memory (incBadRegVM.ip + 1) = some 8 ∧
    readMem incBadRegVM.memory incBadRegVM.ip = some Opcode.INC.toInt ∧
    ¬ (0 ≤ (8 : Int) ∧ (8 : Int) < 8) ∧
    step incBadRegVM = none ∧
    readMem popBadRegVM.memory (popBadRegVM.ip + 1) = some 9 ∧
    readMem popBadRegVM.memory popBadRegVM.ip = some Opcode.POP.toInt ∧
    ¬ (0 ≤ (9 : Int) ∧ (9 : Int) < 8) ∧
    step popBadRegVM = some { popBadRegVM with ip := popBadRegVM.ip + 2 } :=
  ⟨by decide, by decide, by decide,
    (register_operand_unchecked incBadRegVM 8 0 (by decide)).1 .INC (by decide) (by decide)
      (by decide),
    by decide, by decide, by decide,
    (register_operand_unchecked popBadRegVM 9 0 (by decide)).2.1 (by decide) (by decide)⟩

/-! ## C14: memory is written by STORE only -/

/-- C14, as stated, fails at one instruction: `DIV 1,2` with `R1 = -2^31` and `R2 = -1` is not
a `STORE` and its operands are in range, but the source performs the division, whose
quotient is not representable, so the cycle has no defined result: there is no state
after it in which the memory is unchanged. -/
theorem div_overflow_no_memory_frame :
    divOverflowVM.atIp = (some Opcode.DIV.toInt, some 1, some 2) ∧
    Opcode.DIV ≠ Opcode.STORE ∧
    operandsOk divOverflowVM .DIV = true ∧
    readReg divOverflowVM.registers 1 = some (-2147483648) ∧
    readReg divOverflowVM.registers 2 = some (-1) ∧
    (step divOverflowVM).isNone = true ∧
    ¬ ∃ s' : VM, step divOverflowVM = some s' ∧ s'.memory = divOverflowVM.memory := by
  refine ⟨by decide, by decide, by decide, by decide, by decide, by decide, ?_⟩
  rintro ⟨s', hs, -⟩
  have hn : (step divOverflowVM).isNone = true := by decide
  rw [hs] at hn
  cases hn

/-- C14, amended: for every opcode other than `STORE` whose operands are in range (for `DIV`:
unless the two registers hold `-2^31` and `-1`), one fetch-execute cycle succeeds and leaves
the memory as it was; and `STORE r,a` with operands in range succeeds, leaves in cell `a`
the value register `r` held, and leaves every other cell, all registers and the stack
unchanged. -/
theorem memory_written_only_by_store (s : VM) :
    (∀ op : Opcode, op ≠ .STORE →
      readMem s.memory s.ip = some op.toInt → operandsOk s op = true →
      (op = .DIV → divOverflow s = false) →
      ∃ s' : VM, step s = some s' ∧ s'.memory = s.memory) ∧
    (∀ r a : Int, readMem s.memory s.ip = some Opcode.STORE.toInt →
      operandsOk s .STORE = true →
      readMem s.memory (s.ip + 1) = some r → readMem s.memory (s.ip + 2) = some a →
      ∃ (s' : VM) (v : Int), step s = some s' ∧
        readReg s.registers r = some v ∧ readMem s'.memory a = some v ∧
        (∀ j : Fin 65536, (j.val : Int) ≠ a → s'.memory j = s.memory j) ∧
        s'.registers = s.registers ∧ s'.stack = s.stack) := by
  constructor
  · intro op hne hop hok hdiv
    obtain ⟨s', hs, hmem, -, -⟩ := step_of_operandsOk s op hop hok hdiv
    exact ⟨s', hs, hmem hne⟩
  · intro r a hop hok h1 h2
    obtain ⟨r', a', h1', h2', hr, ha⟩ :=
      operandsOk_two (show operandsOkFrom s.memory (s.ip + 1) [.reg, .addr] = true from hok)
    rw [h1] at h1'
    rw [h2] at h2'
    cases h1'
    cases h2'
    simp only [operandOk, decide_eq_true_eq] at hr ha
    obtain ⟨v, hv⟩ := readReg_isSome s.registers hr
    obtain ⟨m', hw⟩ := writeMem_isSome s.memory ha v
    refine ⟨{ s with ip := s.ip + 3, memory := m' }, v, ?_, hv, readMem_writeMem_self hw,
      writeMem_frame hw, rfl, rfl⟩
    rw [step_eq hop]
    simp [execute, fetch_next, h1, h2, hv, hw, add_assoc]

/-- C14, amended, on `CMP 2,3`, on `DIV 1,2` with `R1 = -7` and `R2 = 2`, and on `STORE 2,100`
with `R2 = 42`. -/
theorem memory_written_only_by_store_witness :
    (Opcode.CMP ≠ .STORE ∧ readMem cmpVM.memory cmpVM.ip = some Opcode.CMP.toInt ∧
      operandsOk cmpVM .CMP = true) ∧
    (∃ s' : VM, step cmpVM = some s' ∧ s'.memory = cmpVM.memory) ∧
    (Opcode.DIV ≠ .STORE ∧ readMem divVM.memory divVM.ip = some Opcode.DIV.toInt ∧
      operandsOk divVM .DIV = true ∧ divOverflow divVM = false) ∧
    (∃ s' : VM, step divVM = some s' ∧ s'.memory = divVM.memory) ∧
    (storeVM.atIp = (some Opcode.STORE.toInt, some 2, some 100) ∧
      operandsOk storeVM .STORE = true) ∧
    (∃ (s' : VM) (v : Int), step storeVM = some s' ∧
      readReg storeVM.registers 2 = some v ∧ readMem s'.memory 100 = some v ∧
      (∀ j : Fin 65536, (j.val : Int) ≠ 100 → s'.memory j = storeVM.memory j) ∧
      s'.registers = storeVM.registers ∧ s'.stack = storeVM.stack) :=
  ⟨⟨by decide, by decide, by decide⟩,
    (memory_written_only_by_store cmpVM).1 .CMP (by decide) (by decide) (by decide)
      (fun e => Opcode.noConfusion e),
    ⟨by decide, by decide, by decide, by decide⟩,
    (memory_written_only_by_store divVM).1 .DIV (by decide) (by decide) (by decide)
      (fun _ => by decide),
    ⟨by decide, by decide⟩,
    (memory_written_only_by_store storeVM).2 2 100 (by decide) (by decide) (by decide)
      (by decide)⟩

/-! ## C15: fixed arity -/

/-- C15, as stated, fails at one instruction: `DIV 1,2` with `R1 = -2^31` and `R2 = -1` has
in-range operands and transfers no control, but the division is undefined, so the cycle
has no defined result: there is no state after it with the instruction pointer at
`p + 1 + 2`. -/
theorem div_overflow_no_next_ip :
    divOverflowVM.atIp = (some Opcode.DIV.toInt, some 1, some 2) ∧
    operandsOk divOverflowVM .DIV = true ∧
    transfers divOverflowVM .DIV = false ∧
    readReg divOverflowVM.registers 1 = some (-2147483648) ∧
    readReg divOverflowVM.registers 2 = some (-1) ∧
    (step divOverflowVM).isNone = true ∧
    ¬ ∃ s' : VM, step divOverflowVM = some s' ∧ s'.ip = divOverflowVM.ip + 1 + 2 := by
  refine ⟨by decide, by decide, by decide, by decide, by decide, by decide, ?_⟩
  rintro ⟨s', hs, -⟩
  have hn : (step divOverflowVM).isNone = true := by decide
  rw [hs] at hn
  cases hn

/-- C15, amended: with the opcode `op` at the instruction pointer `p`, `execute` fetches
exactly the number of operand cells the claim's table gives for `op`, whatever the state.
Not fewer: when the last of these cells, `p + arity`, cannot be fetched, the cycle has no
result.  Not more: when the `arity` cells after `p` hold in-range operands (for `DIV`:
unless the two registers hold `-2^31` and `-1`) the cycle succeeds, whatever lies beyond
them, and unless the instruction transfers control (`JMP`, `CALL`, a taken `JZ` or `JNZ`,
`RET` on a non-empty stack) it ends with the instruction pointer at `p + 1 + arity`; a
transfer by `JMP`, `CALL`, `JZ` or `JNZ` ends at the operand in cell `p + 1`, and `CALL` pushes
`p + 1 + arity` as the return address. -/
theorem fixed_arity (s : VM) (op : Opcode)
    (hop : readMem s.memory s.ip = some op.toInt) :
    (op.operands.length : Int) = op.arity ∧
    (1 ≤ op.arity → readMem s.memory (s.ip + op.arity) = none → step s = none) ∧
    (operandsOk s op = true → (op = .DIV → divOverflow s = false) →
      ∃ s' : VM, step s = some s' ∧
        (transfers s op = false → s'.ip = s.ip + 1 + op.arity) ∧
        (transfers s op = true → op ≠ .RET → readMem s.memory (s.ip + 1) = some s'.ip) ∧
        (op = .CALL → s'.stack = (s.ip + 1 + op.arity) :: s.stack)) := by
  refine ⟨by cases op <;> rfl, step_none_of_unreadable_operand s op hop, ?_⟩
  intro hok hdiv
  obtain ⟨s', hs, -, -, hip⟩ := step_of_operandsOk s op hop hok hdiv
  refine ⟨s', hs, hip, ?_, ?_⟩
  · intro ht hret
    exact (step_jump s s' op hop hs ht hret).1
  · intro hcall
    subst hcall
    exact (step_jump s s' .CALL hop hs rfl (fun e => Opcode.noConfusion e)).2 rfl

/-- C15, amended, on `DIV 1,2` with a zero divisor, on `JMP 7` in the last two cells of the
memory, on `CALL 9` there, and on a `JMP` in the very last cell, whose operand cell does not
exist. -/
theorem fixed_arity_witness :
    (readMem divZeroVM.memory divZeroVM.ip = some Opcode.DIV.toInt ∧
      operandsOk divZeroVM .DIV = true ∧ divOverflow divZeroVM = false ∧
      transfers divZeroVM .DIV = false) ∧
    (∃ s' : VM, step divZeroVM = some s' ∧
      (transfers divZeroVM .DIV = false → s'.ip = divZeroVM.ip + 1 + 2) ∧
      (transfers divZeroVM .DIV = true → Opcode.DIV ≠ .RET →
        readMem divZeroVM.memory (divZeroVM.ip + 1) = some s'.ip) ∧
      (Opcode.DIV = .CALL → s'.stack = (divZeroVM.ip + 1 + 2) :: divZeroVM.stack)) ∧
    (readMem jmpAtEndVM.memory jmpAtEndVM.ip = some Opcode.JMP.toInt ∧
      operandsOk jmpAtEndVM .JMP = true ∧ jmpAtEndVM.ip + 1 = 65535) ∧
    (step jmpAtEndVM).map (fun s => s.ip) = some 7 ∧
    (readMem callAtEndVM.memory callAtEndVM.ip = some Opcode.CALL.toInt ∧
      operandsOk callAtEndVM .CALL = true) ∧
    (step callAtEndVM).map (fun s => (s.ip, s.stack)) = some (9, [65536]) ∧
    (readMem jmpLastCellVM.memory jmpLastCellVM.ip = some Opcode.JMP.toInt ∧
      (1 : Int) ≤ Opcode.JMP.arity ∧
      readMem jmpLastCellVM.memory (jmpLastCellVM.ip + Opcode.JMP.arity) = none) ∧
    step jmpLastCellVM = none :=
  ⟨⟨by decide, by decide, by decide, by decide⟩,
    (fixed_arity divZeroVM .DIV (by decide)).2.2 (by decide) (fun _ => by decide),
    ⟨by decide, by decide, by decide⟩, by decide,
    ⟨by decide, by decide⟩, by decide,
    ⟨by decide, by decide, by decide⟩,
    (fixed_arity jmpLastCellVM .JMP (by decide)).2.1 (by decide) (by decide)⟩

/-! ## C16: DIV with a non-zero divisor -/

/-- C16: with `DIV` at the instruction pointer followed by the operands `r1` and `r2`, where
register `r1` holds the 32-bit value `v1` and register `r2` holds `v2` (so both indices lie
in `[0,8)`), `v2 ≠ 0` and `(v1, v2) ≠ (-2^31, -1)`, one fetch-execute cycle succeeds and
leaves in register `r1` the quotient rounded toward zero, a 32-bit value: the quotient of
the magnitudes carrying the sign of `v1 / v2`, which is 1 when `r1 = r2`.  Every other
register, the memory and the stack are unchanged. -/
theorem div_truncates (s : VM) (r1 r2 v1 v2 : Int)
    (hop : readMem s.memory s.ip = some Opcode.DIV.toInt)
    (h1 : readMem s.memory (s.ip + 1) = some r1)
    (h2 : readMem s.memory (s.ip + 2) = some r2)
    (hv1 : readReg s.registers r1 = some v1)
    (hv2 : readReg s.registers r2 = some v2)
    (hb1 : isInt32 v1)
    (hnz : v2 ≠ 0)
    (hno : ¬ (v1 = -2147483648 ∧ v2 = -1)) :
    ∃ (s' : VM) (q : Int), step s = some s' ∧
      readReg s'.registers r1 = some q ∧
      isInt32 q ∧
      q = Int.tdiv v1 v2 ∧
      q = v1.sign * v2.sign * ((v1.natAbs / v2.natAbs : Nat) : Int) ∧
      (r1 = r2 → q = 1) ∧
      (∀ j : Fin 8, (j.val : Int) ≠ r1 → s'.registers j = s.registers j) ∧
      s'.memory = s.memory ∧ s'.stack = s.stack := by
  obtain ⟨regs, hw⟩ := writeReg_isSome s.registers (readReg_range hv1) (Int.tdiv v1 v2)
  refine ⟨{ s with ip := s.ip + 3, registers := regs }, Int.tdiv v1 v2, ?_,
    readReg_writeReg_self hw, tdiv_isInt32 hb1 hnz hno, rfl, tdiv_eq_sign_mul v1 v2, ?_,
    writeReg_frame hw, rfl, rfl⟩
  · rw [step_eq hop]
    simp [execute, fetch_next, h1, h2, hv1, hv2, hnz, hno, hw, add_assoc]
  · intro e
    subst e
    rw [hv1] at hv2
    cases hv2
    exact Int.tdiv_self hnz

/-- C16 on `DIV 1,2` with `R1 = -7` and `R2 = 2`: the quotient is -3. -/
theorem div_truncates_witness :
    divVM.atIp = (some Opcode.DIV.toInt, some 1, some 2) ∧
    readReg divVM.registers 1 = some (-7) ∧ readReg divVM.registers 2 = some 2 ∧
    isInt32 (-7) ∧ (2 : Int) ≠ 0 ∧ ¬ ((-7 : Int) = -2147483648 ∧ (2 : Int) = -1) ∧
    (step divVM).bind (fun s => readReg s.registers 1) = some (-3) ∧
    ∃ (s' : VM) (q : Int), step divVM = some s' ∧
      readReg s'.registers 1 = some q ∧
      isInt32 q ∧
      q = Int.tdiv (-7) 2 ∧
      q = (-7 : Int).sign * (2 : Int).sign * (((-7 : Int).natAbs / (2 : Int).natAbs : Nat) : Int) ∧
      ((1 : Int) = 2 → q = 1) ∧
      (∀ j : Fin 8, (j.val : Int) ≠ 1 → s'.registers j = divVM.registers j) ∧
      s'.memory = divVM.memory ∧ s'.stack = divVM.stack :=
  ⟨by decide, by decide, by decide, by decide, by decide, by decide, by decide,
    div_truncates divVM 1 2 (-7) 2 (by decide) (by decide) (by decide) (by decide)
      (by decide) (by decide) (by decide) (by decide)⟩

/-! ## C17: SUB, MUL, AND, OR, XOR -/

/-- C17: for `op` among `SUB`, `MUL`, `AND`, `OR`, `XOR` at the instruction pointer, followed by
the operands `r1` and `r2`, where registers `r1` and `r2` hold the 32-bit values `v1` and
`v2`, one fetch-execute cycle succeeds and leaves in register `r1` a 32-bit value `w`:
congruent modulo `2^32` to `v1 - v2` for `SUB` and to `v1 * v2` for `MUL`, and having in
every bit position of the two's complement representation the conjunction, disjunction
or exclusive disjunction of the bits of `v1` and `v2` for `AND`, `OR`, `XOR`.  `SUB r,r` and
`XOR r,r` leave 0.  Every register other than `r1`, the memory and the stack are
unchanged. -/
theorem binary_register_operations (s : VM) (op : Opcode) (r1 r2 v1 v2 : Int)
    (hmem : op ∈ [Opcode.SUB, .MUL, .AND, .OR, .XOR])
    (hop : readMem s.memory s.ip = some op.toInt)
    (h1 : readMem s.memory (s.ip + 1) = some r1)
    (h2 : readMem s.memory (s.ip + 2) = some r2)
    (hv1 : readReg s.registers r1 = some v1)
    (hv2 : readReg s.registers r2 = some v2)
    (hb1 : isInt32 v1) (hb2 : isInt32 v2) :
    ∃ (s' : VM) (w : Int), step s = some s' ∧
      readReg s'.registers r1 = some w ∧ isInt32 w ∧
      (op = .SUB → (4294967296 : Int) ∣ (w - (v1 - v2))) ∧
      (op = .MUL → (4294967296 : Int) ∣ (w - v1 * v2)) ∧
      (op = .AND → ∀ k : Nat, w.testBit k = (v1.testBit k && v2.testBit k)) ∧
      (op = .OR → ∀ k : Nat, w.testBit k = (v1.testBit k || v2.testBit k)) ∧
      (op = .XOR → ∀ k : Nat, w.testBit k = xor (v1.testBit k) (v2.testBit k)) ∧
      ((op = .SUB ∨ op = .XOR) → r1 = r2 → w = 0) ∧
      (∀ j : Fin 8, (j.val : Int) ≠ r1 → s'.registers j = s.registers j) ∧
      s'.memory = s.memory ∧ s'.stack = s.stack := by
  have same : r1 = r2 → v1 = v2 := by
    intro e
    subst e
    rw [hv1] at hv2
    exact Option.some.inj hv2
  simp only [List.mem_cons, List.mem_singleton, List.not_mem_nil, or_false] at hmem
  rcases hmem with rfl | rfl | rfl | rfl | rfl
  · obtain ⟨regs, hw, hb⟩ := binop_eq (fun a b => wrap32 (a - b)) s r1 r2 v1 v2 h1 h2 hv1 hv2
    have hs : step s = some { s with ip := s.ip + 3, registers := regs } := by
      rw [step_eq hop]
      simp only [execute, Opcode.ofInt_toInt]
      exact hb
    exact ⟨_, wrap32 (v1 - v2), hs, readReg_writeReg_self hw, wrap32_isInt32 _,
      fun _ => wrap32_congr _, fun e => Opcode.noConfusion e,
      fun e => Opcode.noConfusion e, fun e => Opcode.noConfusion e,
      fun e => Opcode.noConfusion e,
      (fun _ e => by rw [same e]; simp [wrap32]),
      writeReg_frame hw, rfl, rfl⟩
  · obtain ⟨regs, hw, hb⟩ := binop_eq (fun a b => wrap32 (a * b)) s r1 r2 v1 v2 h1 h2 hv1 hv2
    have hs : step s = some { s with ip := s.ip + 3, registers := regs } := by
      rw [step_eq hop]
      simp only [execute, Opcode.ofInt_toInt]
      exact hb
    exact ⟨_, wrap32 (v1 * v2), hs, readReg_writeReg_self hw, wrap32_isInt32 _,
      fun e => Opcode.noConfusion e, fun _ => wrap32_congr _,
      fun e => Opcode.noConfusion e, fun e => Opcode.noConfusion e,
      fun e => Opcode.noConfusion e,
      (fun e => by rcases e with e | e <;> cases e),
      writeReg_frame hw, rfl, rfl⟩
  · obtain ⟨regs, hw, hb⟩ := binop_eq Int.land s r1 r2 v1 v2 h1 h2 hv1 hv2
    have hs : step s = some { s with ip := s.ip + 3, registers := regs } := by
      rw [step_eq hop]
      simp only [execute, Opcode.ofInt_toInt]
      exact hb
    exact ⟨_, Int.land v1 v2, hs, readReg_writeReg_self hw, land_isInt32 hb1 hb2,
      fun e => Opcode.noConfusion e, fun e => Opcode.noConfusion e,
      fun _ k => Int.testBit_land v1 v2 k, fun e => Opcode.noConfusion e,
      fun e => Opcode.noConfusion e,
      (fun e => by rcases e with e | e <;> cases e),
      writeReg_frame hw, rfl, rfl⟩
  · obtain ⟨regs, hw, hb⟩ := binop_eq Int.lor s r1 r2 v1 v2 h1 h2 hv1 hv2
    have hs : step s = some { s with ip := s.ip + 3, registers := regs } := by
      rw [step_eq hop]
      simp only [execute, Opcode.ofInt_toInt]
      exact hb
    exact ⟨_, Int.lor v1 v2, hs, readReg_writeReg_self hw, lor_isInt32 hb1 hb2,
      fun e => Opcode.noConfusion e, fun e => Opcode.noConfusion e,
      fun e => Opcode.noConfusion e, fun _ k => Int.testBit_lor v1 v2 k,
      fun e => Opcode.noConfusion e,
      (fun e => by rcases e with e | e <;> cases e),
      writeReg_frame hw, rfl, rfl⟩
  · obtain ⟨regs, hw, hb⟩ := binop_eq Int.xor s r1 r2 v1 v2 h1 h2 hv1 hv2
    have hs : step s = some { s with ip := s.ip + 3, registers := regs } := by
      rw [step_eq hop]
      simp only [execute, Opcode.ofInt_toInt]
      exact hb
    exact ⟨_, Int.xor v1 v2, hs, readReg_writeReg_self hw, xor_isInt32 hb1 hb2,
      fun e => Opcode.noConfusion e, fun e => Opcode.noConfusion e,
      fun e => Opcode.noConfusion e, fun e => Opcode.noConfusion e,
      fun _ k => Int.testBit_lxor v1 v2 k,
      (fun _ e => by rw [same e]; exact xor_self_eq_zero v2),
      writeReg_frame hw, rfl, rfl⟩

/-- C17 on `SUB 1,2` with `R1 = -2147483648` and `R2 = 1`, which wraps to `2147483647`. -/
theorem binary_register_operations_witness :
    Opcode.SUB ∈ [Opcode.SUB, .MUL, .AND, .OR, .XOR] ∧
    subVM.atIp = (some Opcode.SUB.toInt, some 1, some 2) ∧
    readReg subVM.registers 1 = some (-2147483648) ∧ readReg subVM.registers 2 = some 1 ∧
    isInt32 (-2147483648) ∧ isInt32 1 ∧
    (step subVM).bind (fun s => readReg s.registers 1) = some 2147483647 ∧
    (step xorSelfVM).bind (fun s => readReg s.registers 3) = some 0 ∧
    ∃ (s' : VM) (w : Int), step subVM = some s' ∧
      readReg s'.registers 1 = some w ∧ isInt32 w ∧
      (Opcode.SUB = .SUB → (4294967296 : Int) ∣ (w - (-2147483648 - 1))) ∧
      (Opcode.SUB = .MUL → (4294967296 : Int) ∣ (w - -2147483648 * 1)) ∧
      (Opcode.SUB = .AND →
        ∀ k : Nat, w.testBit k = ((-2147483648 : Int).testBit k && (1 : Int).testBit k)) ∧
      (Opcode.SUB = .OR →
        ∀ k : Nat, w.testBit k = ((-2147483648 : Int).testBit k || (1 : Int).testBit k)) ∧
      (Opcode.SUB = .XOR →
        ∀ k : Nat, w.testBit k = xor ((-2147483648 : Int).testBit k) ((1 : Int).testBit k)) ∧
      ((Opcode.SUB = .SUB ∨ Opcode.SUB = .XOR) → (1 : Int) = 2 → w = 0) ∧
      (∀ j : Fin 8, (j.val : Int) ≠ 1 → s'.registers j = subVM.registers j) ∧
      s'.memory = subVM.memory ∧ s'.stack = subVM.stack :=
  ⟨by decide, by decide, by decide, by decide, by decide, by decide, by decide, by decide,
    binary_register_operations subVM .SUB 1 2 (-2147483648) 1 (by decide) (by decide)
      (by decide) (by decide) (by decide) (by decide) (by decide) (by decide)⟩

/-! ## C18: only HLT clears the running flag -/

/-- C18, as stated, fails at one instruction: from a running state, `DIV 1,2` with
`R1 = -2^31` and `R2 = -1` is not `HLT` and its operands are in range, but the division is
undefined, so the cycle has no defined result: there is no state after it with
`running = true`. -/
theorem div_overflow_no_running_state :
    divOverflowVM.running = true ∧
    divOverflowVM.atIp = (some Opcode.DIV.toInt, some 1, some 2) ∧
    Opcode.DIV ≠ Opcode.HLT ∧
    operandsOk divOverflowVM .DIV = true ∧
    readReg divOverflowVM.registers 1 = some (-2147483648) ∧
    readReg divOverflowVM.registers 2 = some (-1) ∧
    (step divOverflowVM).isNone = true ∧
    ¬ ∃ s' : VM, step divOverflowVM = some s' ∧ s'.running = true := by
  refine ⟨by decide, by decide, by decide, by decide, by decide, by decide, by decide, ?_⟩
  rintro ⟨s', hs, -⟩
  have hn : (step divOverflowVM).isNone = true := by decide
  rw [hs] at hn
  cases hn

/-- C18, amended: from a state with `running = true`, one fetch-execute cycle of any opcode
other than `HLT` with operands in range (for `DIV`: unless the two registers hold `-2^31` and
`-1`), and of any cell value that is no opcode, succeeds and leaves `running = true`.
Consequently, if after at most `n` cycles of the loop of `run` the flag is `false` (in
particular if `run` returned within `n` cycles), then one of those cycles started with
`running = true` and fetched the opcode `HLT`. -/
theorem running_cleared_only_by_hlt (s : VM)
    (hrun : s.running = true) :
    (∀ op : Opcode, op ≠ .HLT →
      readMem s.memory s.ip = some op.toInt → operandsOk s op = true →
      (op = .DIV → divOverflow s = false) →
      ∃ s' : VM, step s = some s' ∧ s'.running = true) ∧
    (∀ i : Int, i < 0 ∨ 25 < i → readMem s.memory s.ip = some i →
      ∃ s' : VM, step s = some s' ∧ s'.running = true) ∧
    (∀ (n : Nat) (s' : VM), cycles n s = some s' → s'.running = false →
      ∃ (k : Nat) (sk : VM), k < n ∧ cycles k s = some sk ∧ sk.running = true ∧
        readMem sk.memory sk.ip = some Opcode.HLT.toInt) ∧
    (∀ (n : Nat) (s' : VM), run n s = .halted s' →
      ∃ (k : Nat) (sk : VM), k < n ∧ cycles k s = some sk ∧ sk.running = true ∧
        readMem sk.memory sk.ip = some Opcode.HLT.toInt) := by
  refine ⟨?_, ?_, ?_, ?_⟩
  · intro op hne hop hok hdiv
    obtain ⟨s', hs, -, hr, -⟩ := step_of_operandsOk s op hop hok hdiv
    exact ⟨s', hs, by rw [hr hne, hrun]⟩
  · intro i hi hcell
    refine ⟨{ s with ip := s.ip + 1 }, ?_, hrun⟩
    rw [step_eq hcell]
    simp only [execute, Opcode.ofInt_eq_none hi]
  · intro n s' hc hf
    exact cycles_halt_fetches_hlt n s s' hrun hc hf
  · intro n s' hr
    obtain ⟨hc, hf⟩ := run_halted_cycles n s s' hr
    exact cycles_halt_fetches_hlt n s s' hrun hc hf

/-- C18, amended, on `CMP 2,3`, on `DIV 1,2` with `R1 = -7` and `R2 = 2`, and on the machine
`26; OUT 7,0; HLT`, which returns after three cycles. -/
theorem running_cleared_only_by_hlt_witness :
    cmpVM.running = true ∧
    (Opcode.CMP ≠ .HLT ∧ readMem cmpVM.memory cmpVM.ip = some Opcode.CMP.toInt ∧
      operandsOk cmpVM .CMP = true) ∧
    (∃ s' : VM, step cmpVM = some s' ∧ s'.running = true) ∧
    divVM.running = true ∧
    (Opcode.DIV ≠ .HLT ∧ readMem divVM.memory divVM.ip = some Opcode.DIV.toInt ∧
      operandsOk divVM .DIV = true ∧ divOverflow divVM = false) ∧
    (∃ s' : VM, step divVM = some s' ∧ s'.running = true) ∧
    unknownOpcodeVM.running = true ∧
    (run 3 unknownOpcodeVM).final.map (fun s => s.running) = some false ∧
    (∀ s' : VM, run 3 unknownOpcodeVM = .halted s' →
      ∃ (k : Nat) (sk : VM), k < 3 ∧ cycles k unknownOpcodeVM = some sk ∧ sk.running = true ∧
        readMem sk.memory sk.ip = some Opcode.HLT.toInt) :=
  ⟨by decide, ⟨by decide, by decide, by decide⟩,
    (running_cleared_only_by_hlt cmpVM (by decide)).1 .CMP (by decide) (by decide) (by decide)
      (fun e => Opcode.noConfusion e),
    by decide, ⟨by decide, by decide, by decide, by decide⟩,
    (running_cleared_only_by_hlt divVM (by decide)).1 .DIV (by decide) (by decide) (by decide)
      (fun _ => by decide),
    by decide, by decide,
    (running_cleared_only_by_hlt unknownOpcodeVM (by decide)).2.2.2 3⟩

/-! ## C19: STORE followed by LOAD of the same address -/

/-- C19: with the six cells `STORE, r, a, LOAD, r', a` at the instruction pointer `p`, `r` and
`r'` in `[0,8)` and `a` in `[0,65536)` but none of `p+3`, `p+4`, `p+5`, the two fetch-execute
cycles succeed, and afterwards register `r'` and cell `a` both hold the value `v` register
`r` held before the `STORE`.  The exclusion is needed: there is such a state with `a = p+3`
in which the two cycles leave register `r'` without the value `v`, because the `STORE` has
replaced the opcode cell of the `LOAD`. -/
theorem store_load_roundtrip :
    (∀ (s : VM) (r r' a v : Int),
      readMem s.memory s.ip = some Opcode.STORE.toInt →
      readMem s.memory (s.ip + 1) = some r →
      readMem s.memory (s.ip + 2) = some a →
      readMem s.memory (s.ip + 3) = some Opcode.LOAD.toInt →
      readMem s.memory (s.ip + 4) = some r' →
      readMem s.memory (s.ip + 5) = some a →
      readReg s.registers r = some v →
      (0 ≤ r' ∧ r' < 8) →
      (0 ≤ a ∧ a < 65536) →
      (a ≠ s.ip + 3 ∧ a ≠ s.ip + 4 ∧ a ≠ s.ip + 5) →
      ∃ s' : VM, (step s).bind step = some s' ∧
        readReg s'.registers r' = some v ∧ readMem s'.memory a = some v) ∧
    (∃ (s : VM) (r r' a v : Int),
      s.atIp = (some Opcode.STORE.toInt, some r, some a) ∧
      ({ s with ip := s.ip + 3 } : VM).atIp = (some Opcode.LOAD.toInt, some r', some a) ∧
      readReg s.registers r = some v ∧ (0 ≤ r' ∧ r' < 8) ∧ a = s.ip + 3 ∧
      ((step s).bind step).bind (fun s' => readReg s'.registers r') ≠ some v) := by
  constructor
  · intro s r r' a v h0 h1 h2 h3 h4 h5 hv hr' ha hne
    obtain ⟨m', hw⟩ := writeMem_isSome s.memory ha v
    obtain ⟨regs, hwr⟩ := writeReg_isSome s.registers hr' v
    have hstore : step s = some { s with ip := s.ip + 3, memory := m' } := by
      rw [step_eq h0]
      simp [execute, fetch_next, h1, h2, hv, hw, add_assoc]
    have h3' : readMem m' (s.ip + 3) = some Opcode.LOAD.toInt := by
      rw [readMem_writeMem_of_ne hw (Ne.symm hne.1), h3]
    have h4' : readMem m' (s.ip + 4) = some r' := by
      rw [readMem_writeMem_of_ne hw (Ne.symm hne.2.1), h4]
    have h5' : readMem m' (s.ip + 5) = some a := by
      rw [readMem_writeMem_of_ne hw (Ne.symm hne.2.2), h5]
    have hma : readMem m' a = some v := readMem_writeMem_self hw
    refine ⟨{ s with ip := s.ip + 6, memory := m', registers := regs }, ?_,
      readReg_writeReg_self hwr, hma⟩
    rw [hstore, Option.some_bind, step_eq (by exact h3')]
    simp [execute, fetch_next, h4', h5', hma, hwr, add_assoc]
  · exact ⟨storeOverLoadVM, 1, 2, 3, 22, by decide, by decide, by decide, by decide, by decide,
      by decide⟩

/-- C19 on `STORE 1,100; LOAD 2,100` with `R1 = 42`; and what happens on `STORE 1,3; LOAD 2,3`
with `R1 = 22`: the second cycle executes the stored 22, a `HLT`. -/
theorem store_load_roundtrip_witness :
    (storeLoadVM.atIp = (some Opcode.STORE.toInt, some 1, some 100) ∧
      ({ storeLoadVM with ip := 3 } : VM).atIp = (some Opcode.LOAD.toInt, some 2, some 100) ∧
      readReg storeLoadVM.registers 1 = some 42) ∧
    (∃ s' : VM, (step storeLoadVM).bind step = some s' ∧
      readReg s'.registers 2 = some 42 ∧ readMem s'.memory 100 = some 42) ∧
    ((step storeOverLoadVM).bind step).map
        (fun s => (s.running, s.ip, readReg s.registers 2, readMem s.memory 3))
      = some (false, 4, some 0, some 22) :=
  ⟨⟨by decide, by decide, by decide⟩,
    store_load_roundtrip.1 storeLoadVM 1 2 100 42 (by decide) (by decide) (by decide)
      (by decide) (by decide) (by decide) (by decide) (by decide) (by decide) (by decide),
    by decide⟩

/-! ## C20: the program bundled with `main` -/

/-- The bundled program ends in an out-of-bounds access at its seventh cycle. -/
theorem main_run_seven :
    mainVM.map (fun vm => ((run 7 vm).final.isNone, (run 7 vm).timedOut))
      = some (true, false) := by
  decide

/-- C20 fails on the code: set up exactly as `main` does, the machine no longer holds the
program as written, because `memory[5] = 4` replaces the opcode `STORE` by `POP` and
`memory[10] = 5` replaces an address operand by the opcode `ADD`.  The cycles
fetch `LOAD`, `INC`, `POP`, `ADD`, `ADD`, `ADD` and then, at cell 16, `LOAD 9,0`, whose register
operand 9 is outside `[0,8)`: the seventh cycle indexes the register file out of bounds,
and `run` never returns in a defined state. -/
theorem main_program_indexes_register_9 :
    (List.range 7).map (fun k => (mainVM.bind (cycles k)).map
        (fun s => (s.running, s.ip, readMem s.memory s.ip)))
      = [some (true, 0, some Opcode.LOAD.toInt), some (true, 3, some Opcode.INC.toInt),
         some (true, 5, some Opcode.POP.toInt), some (true, 7, some Opcode.ADD.toInt),
         some (true, 10, some Opcode.ADD.toInt), some (true, 13, some Opcode.ADD.toInt),
         some (true, 16, some Opcode.LOAD.toInt)] ∧
    (mainVM.bind (cycles 6)).map VM.atIp = some (some Opcode.LOAD.toInt, some 9, some 0) ∧
    ((mainVM.bind (cycles 6)).bind step).isNone = true ∧
    ¬ ∃ (n : Nat) (vm s : VM), mainVM = some vm ∧ run n vm = .halted s := by
  refine ⟨by decide, by decide, by decide, ?_⟩
  rintro ⟨n, vm, s, hvm, hrun⟩
  have key := main_run_seven
  rw [hvm] at key
  simp only [Option.map_some', Option.some.injEq, Prod.mk.injEq] at key
  cases h7 : run 7 vm with
  | halted s0 => rw [h7] at key; simp [Outcome.final] at key
  | outOfFuel => rw [h7] at key; simp [Outcome.timedOut] at key
  | undefined =>
    have e1 := run_undefined_mono 7 n vm h7
    have e2 := run_halted_mono n 7 vm s hrun
    rw [Nat.add_comm, e1] at e2
    cases e2

end AchiraVM
